import Mathlib

/-!
Verification of the daily-arxiv-vla text pipeline.

Strings are modelled as `List Char`.  Python's regex substitutions are
embedded as deterministic left-to-right scanners: each pattern used by the
scripts is backtracking-free in the sense that greedy quantifier runs are
forced (a shorter run always leaves a character that the next pattern
element rejects), except where noted (the trailing-whitespace backtrack of
the horizontal-rule rule, and the `\s+(.+)$` backtrack of the heading rule),
which are modelled explicitly.  Python's `\d` is modelled as ASCII digits.
-/

namespace ArxivVla

/-- Python's whitespace class for `str` (`\s` in `re`, `str.strip`,
`str.isspace`): given by code point. -/
def pyWs (c : Char) : Bool :=
  c.toNat = 32 || c.toNat = 9 || c.toNat = 10 || c.toNat = 13 ||
  c.toNat = 11 || c.toNat = 12 ||
  (28 ≤ c.toNat && c.toNat ≤ 31) || c.toNat = 0x85 || c.toNat = 0xa0 ||
  c.toNat = 0x1680 || (0x2000 ≤ c.toNat && c.toNat ≤ 0x200a) ||
  c.toNat = 0x2028 || c.toNat = 0x2029 || c.toNat = 0x202f ||
  c.toNat = 0x205f || c.toNat = 0x3000

/-- The line boundaries recognised by Python's `str.splitlines`
(`\r\n` is additionally treated as one boundary). -/
def isLineTerm (c : Char) : Bool :=
  c.toNat = 10 || c.toNat = 13 || c.toNat = 11 || c.toNat = 12 ||
  (28 ≤ c.toNat && c.toNat ≤ 30) || c.toNat = 0x85 ||
  c.toNat = 0x2028 || c.toNat = 0x2029

/-- `str.lstrip()`. -/
def pyLstrip (l : List Char) : List Char := l.dropWhile pyWs

/-- `str.rstrip()`. -/
def pyRstrip (l : List Char) : List Char := (l.reverse.dropWhile pyWs).reverse

/-- `str.strip()`. -/
def pyStrip (l : List Char) : List Char := pyLstrip (pyRstrip l)

/-- Worker for `str.splitlines`: `cur` holds the current line reversed. -/
def splitlinesGo : List Char → List Char → List (List Char)
  | cur, [] => [cur.reverse]
  | cur, '\r' :: '\n' :: rest =>
    cur.reverse :: (if rest.isEmpty then [] else splitlinesGo [] rest)
  | cur, c :: rest =>
    if isLineTerm c then cur.reverse :: (if rest.isEmpty then [] else splitlinesGo [] rest)
    else splitlinesGo (c :: cur) rest

/-- `str.splitlines()`. -/
def pySplitlines (l : List Char) : List (List Char) :=
  if l.isEmpty then [] else splitlinesGo [] l

/-- `str.split(sep)` for a one-character separator. -/
def splitCh (sep : Char) : List Char → List (List Char)
  | [] => [[]]
  | c :: cs =>
    if c = sep then [] :: splitCh sep cs
    else
      match splitCh sep cs with
      | r :: rs => (c :: r) :: rs
      | [] => [[c]]

/-- Literal list-of-characters match at the front. -/
def startsWith : List Char → List Char → Bool
  | [], _ => true
  | _ :: _, [] => false
  | p :: ps, c :: cs => p = c && startsWith ps cs

/-- Case-insensitive literal match at the front (ASCII case folding,
matching `re.IGNORECASE` on the ASCII patterns used by the scripts). -/
def startsWithCI : List Char → List Char → Bool
  | [], _ => true
  | _ :: _, [] => false
  | p :: ps, c :: cs => p.toLower = c.toLower && startsWithCI ps cs

/-- Does `pat` occur (case-sensitively) anywhere in the text? -/
def containsSub (pat : List Char) : List Char → Bool
  | [] => startsWith pat []
  | c :: cs => startsWith pat (c :: cs) || containsSub pat cs

/-- One step of `str.replace`: fuelled scanner replacing each
left-to-right non-overlapping occurrence of `pat` by `rep`. -/
def replaceSubF (pat rep : List Char) : Nat → List Char → List Char
  | 0, l => l
  | _ + 1, [] => []
  | n + 1, c :: cs =>
    if startsWith pat (c :: cs) then rep ++ replaceSubF pat rep n ((c :: cs).drop pat.length)
    else c :: replaceSubF pat rep n cs

/-- `str.replace(pat, rep)` (for non-empty `pat`). -/
def replaceSub (pat rep l : List Char) : List Char := replaceSubF pat rep l.length l

/-- Split at the first case-insensitive occurrence of `pat`, returning the
text before it and the text after it. -/
def splitFirstCI (pat : List Char) : List Char → Option (List Char × List Char)
  | [] => if startsWithCI pat [] then some ([], []) else none
  | c :: cs =>
    if startsWithCI pat (c :: cs) then some ([], (c :: cs).drop pat.length)
    else
      match splitFirstCI pat cs with
      | some (a, b) => some (c :: a, b)
      | none => none

/-- Generic left-to-right `re.sub` scanner: `tf` attempts a match at the
current position and returns the replacement text together with the text
after the match. -/
def scanSub (tf : List Char → Option (List Char × List Char)) : Nat → List Char → List Char
  | 0, l => l
  | _ + 1, [] => []
  | n + 1, c :: cs =>
    match tf (c :: cs) with
    | some (rep, rest) => rep ++ scanSub tf n rest
    | none => c :: scanSub tf n cs

/-! ## `auto_add_linebreaks` (src/scripts/build_site.py, lines 86-140) -/

/-- Does the text start with `#+` followed by a whitespace character
(the lookahead `(?=#+\s)` / the group `#+\s`)? -/
def headsAt (l : List Char) : Bool :=
  match l with
  | c :: _ =>
    (c = '#') &&
    (match l.dropWhile (· = '#') with
     | d :: _ => pyWs d
     | [] => false)
  | [] => false

/-- Match attempt for `re.sub(r"([^\n\s#])\s*(?=#+\s)", r"\1\n", t)`:
an eligible character, then greedy whitespace, with a heading lookahead. -/
def tryHeading (l : List Char) : Option (List Char × List Char) :=
  match l with
  | c :: cs =>
    if !pyWs c && !(c = '#') && headsAt (cs.dropWhile pyWs) then
      some ([c, '\n'], cs.dropWhile pyWs)
    else none
  | [] => none

/-- Match attempt for `re.sub(r"([^\n])\s*---\s*([^\n])", r"\1\n---\n\2", t)`.
The trailing `\s*` backtracks when the string ends in whitespace: the last
non-`'\n'` whitespace character is then captured as `\2`. -/
def tryHrA (l : List Char) : Option (List Char × List Char) :=
  match l with
  | c1 :: r0 =>
    if c1 = '\n' then none else
    match r0.dropWhile pyWs with
    | '-' :: '-' :: '-' :: r2 =>
      match r2.dropWhile pyWs with
      | c2 :: tr => some ([c1, '\n', '-', '-', '-', '\n', c2], tr)
      | [] =>
        match r2.reverse.dropWhile (· = '\n') with
        | c2 :: _ =>
          some ([c1, '\n', '-', '-', '-', '\n', c2], (r2.reverse.takeWhile (· = '\n')).reverse)
        | [] => none
    | _ => none
  | [] => none

/-- Match attempt for `re.sub(r"\s*---\s*", "\n---\n", t)`: greedy whitespace
(possibly empty), the rule token, then greedy whitespace. -/
def tryHrB (l : List Char) : Option (List Char × List Char) :=
  match l.dropWhile pyWs with
  | '-' :: '-' :: '-' :: r2 => some (['\n', '-', '-', '-', '\n'], r2.dropWhile pyWs)
  | _ => none

/-- Match attempt for `re.sub(r"\s+[-–]\s+", "\n- ", t)`. -/
def tryDash (l : List Char) : Option (List Char × List Char) :=
  match l with
  | c :: _ =>
    if pyWs c then
      match l.dropWhile pyWs with
      | d :: r2 =>
        if d = '-' || d = '–' then
          match r2 with
          | e :: _ =>
            if pyWs e then some (['\n', '-', ' '], r2.dropWhile pyWs) else none
          | [] => none
        else none
      | [] => none
    else none
  | [] => none

/-- Match attempt for
`re.sub(r"(?<!\n)(?<!\*\*)(\s*)(\d+\.\s+)", lambda m: "\n" + m.group(2), t)`.
`p2`/`p1` are the two characters preceding the current position (for the
lookbehinds).  Returns the replacement, the rest, and the updated context.
`olCtx` computes the context after the consumed text (its last two
characters: the trailing whitespace run, preceded by the dot). -/
def olCtx (ws1 : List Char) : Option Char × Option Char :=
  match ws1.reverse with
  | a :: b :: _ => (some b, some a)
  | [a] => (some '.', some a)
  | [] => (none, none)

/-- Scanner step for the ordered-list rule proper. -/
def tryOl (p2 p1 : Option Char) (l : List Char) :
    Option (List Char × List Char × Option Char × Option Char) :=
  if p1 = some '\n' || (p2 = some '*' && p1 = some '*') then none else
  if ((l.dropWhile pyWs).takeWhile Char.isDigit).isEmpty then none else
  match (l.dropWhile pyWs).dropWhile Char.isDigit with
  | '.' :: r3 =>
    if (r3.takeWhile pyWs).isEmpty then none else
    some ('\n' :: ((l.dropWhile pyWs).takeWhile Char.isDigit ++ '.' :: r3.takeWhile pyWs),
          r3.dropWhile pyWs, (olCtx (r3.takeWhile pyWs)).1, (olCtx (r3.takeWhile pyWs)).2)
  | _ => none

/-- Scanner for the ordered-list rule, threading the lookbehind context. -/
def olSubF : Nat → Option Char → Option Char → List Char → List Char
  | 0, _, _, l => l
  | _ + 1, _, _, [] => []
  | n + 1, p2, p1, c :: cs =>
    match tryOl p2 p1 (c :: cs) with
    | some (rep, rest, q2, q1) => rep ++ olSubF n q2 q1 rest
    | none => c :: olSubF n p1 (some c) cs

/-- The group `(.+?)\*\*` of the bold-item rule: shortest non-empty run of
non-newline characters followed by `**`.  `acc` holds the group reversed. -/
def boldItemGroup : List Char → List Char → Option (List Char × List Char)
  | acc, '*' :: '*' :: rest => some (acc.reverse, rest)
  | acc, c :: rest => if c = '\n' then none else boldItemGroup (c :: acc) rest
  | _, [] => none

/-- Match attempt for
`re.sub(r"\s+-\s+\*\*(.+?)\*\*", lambda m: "\n- **" + m.group(1) + "**", t)`. -/
def tryBoldItem (l : List Char) : Option (List Char × List Char) :=
  match l with
  | c :: _ =>
    if pyWs c then
      match l.dropWhile pyWs with
      | '-' :: r2 =>
        match r2 with
        | e :: _ =>
          if pyWs e then
            match r2.dropWhile pyWs with
            | '*' :: '*' :: r3 =>
              match r3 with
              | g0 :: grest =>
                if g0 = '\n' then none
                else
                  match boldItemGroup [g0] grest with
                  | some (grp, rest) =>
                    some ('\n' :: '-' :: ' ' :: '*' :: '*' :: (grp ++ ['*', '*']), rest)
                  | none => none
              | [] => none
            | _ => none
          else none
        | [] => none
      | _ => none
    else none
  | [] => none

/-- Match attempt for `re.sub(r"([。！？；])\s*(#+\s+)", r"\1\n\2", t)`. -/
def tryPunct (l : List Char) : Option (List Char × List Char) :=
  match l with
  | p :: rest =>
    if p = '。' || p = '！' || p = '？' || p = '；' then
      let r := rest.dropWhile pyWs
      match r with
      | '#' :: _ =>
        let hs := r.takeWhile (· = '#')
        match r.dropWhile (· = '#') with
        | e :: _ =>
          if pyWs e then
            some (p :: '\n' :: (hs ++ (r.dropWhile (· = '#')).takeWhile pyWs),
                  (r.dropWhile (· = '#')).dropWhile pyWs)
          else none
        | [] => none
      | _ => none
    else none
  | [] => none

/-- Match attempt for `re.sub(r"\n{3,}", "\n\n", t)`: a run of at least
three newlines is replaced by two (the whole run is consumed). -/
def tryCollapse (l : List Char) : Option (List Char × List Char) :=
  if l.take 3 = ['\n', '\n', '\n'] then some (['\n', '\n'], l.dropWhile (· = '\n'))
  else none

/-- The anchored `re.sub(r"^\s*(#+\s+)", r"\1", t)`, applied only when the
text does not already start with `#`: removes whitespace before a leading
heading marker. -/
def hashLeadFix (t : List Char) : List Char :=
  match t with
  | '#' :: _ => t
  | _ =>
    let r := t.dropWhile pyWs
    if headsAt r then r else t

/-- Heading-newline rule (shared by both branches). -/
def headingSub (l : List Char) : List Char := scanSub tryHeading l.length l

/-- Horizontal-rule rule of the has-newlines branch. -/
def hrASub (l : List Char) : List Char := scanSub tryHrA l.length l

/-- Horizontal-rule rule of the no-newlines branch. -/
def hrBSub (l : List Char) : List Char := scanSub tryHrB l.length l

/-- Unordered-list rule. -/
def dashSub (l : List Char) : List Char := scanSub tryDash l.length l

/-- Ordered-list rule. -/
def olSub (l : List Char) : List Char := olSubF l.length none none l

/-- Bold-item rule. -/
def boldItemSub (l : List Char) : List Char := scanSub tryBoldItem l.length l

/-- Sentence-punctuation / heading rule. -/
def punctSub (l : List Char) : List Char := scanSub tryPunct l.length l

/-- Newline-run collapsing. -/
def collapseNl (l : List Char) : List Char := scanSub tryCollapse l.length l

/-- `auto_add_linebreaks` from `build_site.py`. -/
def auto_add_linebreaks (t : List Char) : List Char :=
  if '\n' ∈ t then
    pyStrip (collapseNl (hrASub (headingSub t)))
  else
    pyStrip (collapseNl (punctSub (boldItemSub (olSub (dashSub (hrBSub (hashLeadFix (headingSub t))))))))

/-! ## `markdown_to_html` (src/scripts/build_site.py, lines 143-239) -/

/-- Backtick character (code point 96). -/
def btick : Char := Char.ofNat 96

/-- Match attempt for the inline-code rule
`re.sub(r"`([^`]+)`", r"<code>\1</code>", s)` (pattern quoted loosely:
backtick, one or more non-backticks, backtick). -/
def tryCode (l : List Char) : Option (List Char × List Char) :=
  match l with
  | c :: cs =>
    if c = btick then
      let grp := cs.takeWhile (fun d => !(d = btick))
      if grp.isEmpty then none else
      match cs.dropWhile (fun d => !(d = btick)) with
      | _ :: rest => some ("<code>".toList ++ grp ++ "</code>".toList, rest)
      | [] => none
    else none
  | [] => none

/-- Match attempt for the bold rule `re.sub(r"\*\*([^*]+)\*\*", ...)`. -/
def tryStrong (l : List Char) : Option (List Char × List Char) :=
  match l with
  | '*' :: '*' :: cs =>
    let grp := cs.takeWhile (fun d => !(d = '*'))
    if grp.isEmpty then none else
    match cs.dropWhile (fun d => !(d = '*')) with
    | '*' :: '*' :: rest => some ("<strong>".toList ++ grp ++ "</strong>".toList, rest)
    | _ => none
  | _ => none

/-- Match attempt for the link rule
`re.sub(r"\[([^\]]+)\]\(([^)]+)\)", ...)`.  The raw-string replacement
template contains backslash-quote sequences, which `re.sub` keeps
literally, so the emitted attribute quotes carry a backslash. -/
def tryAnchor (l : List Char) : Option (List Char × List Char) :=
  match l with
  | '[' :: cs =>
    let g1 := cs.takeWhile (fun d => !(d = ']'))
    if g1.isEmpty then none else
    match cs.dropWhile (fun d => !(d = ']')) with
    | ']' :: '(' :: cs2 =>
      let g2 := cs2.takeWhile (fun d => !(d = ')'))
      if g2.isEmpty then none else
      match cs2.dropWhile (fun d => !(d = ')')) with
      | ')' :: rest =>
        some ("<a href=\\\"".toList ++ g2 ++
              "\\\" target=\\\"_blank\\\" rel=\\\"noopener noreferrer\\\">".toList ++ g1 ++
              "</a>".toList, rest)
      | _ => none
    | _ => none
  | _ => none

/-- `render_inline`: code spans, then bold spans, then links. -/
def render_inline (s : List Char) : List Char :=
  let s1 := scanSub tryCode s.length s
  let s2 := scanSub tryStrong s1.length s1
  scanSub tryAnchor s2.length s2

/-- `re.match(r"^(#{1,6})\s+(.+)$", line)`: returns the marker count and
the text matched by `(.+)$` (after the greedy `\s+`, with the documented
one-character backtrack when the rest is all whitespace). -/
def matchHeading (l : List Char) : Option (Nat × List Char) :=
  let hs := l.takeWhile (· = '#')
  if hs.isEmpty || 6 < hs.length then none else
  match l.dropWhile (· = '#') with
  | c :: rest' =>
    if pyWs c then
      match (c :: rest').dropWhile pyWs with
      | t :: ts => some (hs.length, t :: ts)
      | [] =>
        match rest' with
        | _ :: _ => some (hs.length, [(c :: rest').getLastD c])
        | [] => none
    else none
  | [] => none

/-- `re.match(r"^[-*]\s+", line)`. -/
def matchUl (l : List Char) : Bool :=
  match l with
  | c :: d :: _ => (c = '-' || c = '*') && pyWs d
  | _ => false

/-- `re.sub(r"^[-*]\s+", "", line).strip()` for a line matching `matchUl`. -/
def ulItemText (l : List Char) : List Char :=
  match l with
  | _ :: rest => pyStrip (rest.dropWhile pyWs)
  | [] => []

/-- `re.match(r"^\d+\.\s+", line)`. -/
def matchOl (l : List Char) : Bool :=
  let ds := l.takeWhile Char.isDigit
  match l.dropWhile Char.isDigit with
  | '.' :: e :: _ => !ds.isEmpty && pyWs e
  | _ => false

/-- `re.sub(r"^\d+\.\s+", "", line).strip()` for a line matching `matchOl`. -/
def olItemText (l : List Char) : List Char :=
  match l.dropWhile Char.isDigit with
  | '.' :: rest => pyStrip (rest.dropWhile pyWs)
  | _ => pyStrip l

/-- The heading element emitted for marker count `k` and stripped title
`title`: level clamped to 4, style class attached exactly at level 2. -/
def headingHtml (k : Nat) (title : List Char) : List Char :=
  "<h".toList ++ [Nat.digitChar (min k 4)] ++
  (if min k 4 = 2 then " class=\"section-title\"".toList else []) ++
  ">".toList ++ render_inline title ++ "</h".toList ++ [Nat.digitChar (min k 4)] ++ ">".toList

/-- The inner `while` loops of the two list branches: consume consecutive
non-blank lines matching `isM`, emitting one `<li>` element per line;
return the items and the unconsumed lines. -/
def collectItems (isM : List Char → Bool) (itxt : List Char → List Char) :
    List (List Char) → List (List Char) × List (List Char)
  | [] => ([], [])
  | l :: rest =>
    let line := pyRstrip l
    if line.isEmpty then ([], l :: rest)
    else if isM line then
      let pr := collectItems isM itxt rest
      (("<li>".toList ++ render_inline (itxt line) ++ "</li>".toList) :: pr.1, pr.2)
    else ([], l :: rest)

/-- The main line loop of `markdown_to_html`, fuelled by the line count. -/
def renderLinesF : Nat → List (List Char) → List (List Char)
  | 0, _ => []
  | _ + 1, [] => []
  | n + 1, l :: rest =>
    let line := pyRstrip l
    if line.isEmpty then [] :: renderLinesF n rest
    else
      match matchHeading line with
      | some kg => headingHtml kg.1 (pyStrip kg.2) :: renderLinesF n rest
      | none =>
        if pyStrip line = "---".toList then "<hr/>".toList :: renderLinesF n rest
        else if matchUl line then
          let pr := collectItems matchUl ulItemText (l :: rest)
          if pr.1.isEmpty then renderLinesF n pr.2
          else ("<ul>".toList ++ pr.1.flatten ++ "</ul>".toList) :: renderLinesF n pr.2
        else if matchOl line then
          let pr := collectItems matchOl olItemText (l :: rest)
          if pr.1.isEmpty then renderLinesF n pr.2
          else ("<ol>".toList ++ pr.1.flatten ++ "</ol>".toList) :: renderLinesF n pr.2
        else ("<p>".toList ++ render_inline line ++ "</p>".toList) :: renderLinesF n rest

/-- The final pass merging consecutive blank entries. -/
def collapseBlanksGo : Bool → List (List Char) → List (List Char)
  | _, [] => []
  | prevBlank, h :: t =>
    if h.isEmpty && prevBlank then collapseBlanksGo prevBlank t
    else h :: collapseBlanksGo h.isEmpty t

/-- `markdown_to_html` from `build_site.py`. -/
def markdown_to_html (md : List Char) : List Char :=
  let lines := pySplitlines md
  pyStrip (List.intercalate ['\n'] (collapseBlanksGo false (renderLinesF lines.length lines)))

/-! ## `extract_details` (build_site.py, lines 71-83) and
`is_valid_markdown_format` (clear_summaries.py, lines 40-61) -/

/-- `re.search(r"<details>([\s\S]*?)</details>", cell, re.IGNORECASE)`:
the text between the first wrapper opening and the nearest closing after
it. -/
def searchDetails (cell : List Char) : Option (List Char) :=
  match splitFirstCI "<details>".toList cell with
  | none => none
  | some pr =>
    match splitFirstCI "</details>".toList pr.2 with
    | none => none
    | some pr2 => some pr2.1

/-- `re.sub(r"<summary>[\s\S]*?</summary>", "", content, re.IGNORECASE)`,
fuelled scanner. -/
def rmSummariesF : Nat → List Char → List Char
  | 0, l => l
  | n + 1, l =>
    match splitFirstCI "<summary>".toList l with
    | none => l
    | some pr =>
      match splitFirstCI "</summary>".toList pr.2 with
      | none => l
      | some pr2 => pr.1 ++ rmSummariesF n pr2.2

/-- Summary-tag removal. -/
def rmSummaries (l : List Char) : List Char := rmSummariesF l.length l

/-- The three `<br>`-variant replacements, in source order. -/
def brToNl (l : List Char) : List Char :=
  replaceSub "<br />".toList ['\n']
    (replaceSub "<br/>".toList ['\n'] (replaceSub "<br>".toList ['\n'] l))

/-- `extract_details` from `build_site.py`. -/
def extract_details (cell : List Char) : List Char :=
  let content := match searchDetails cell with
    | some g => g
    | none => cell
  pyStrip (brToNl (rmSummaries content))

/-- Is there an occurrence of `##` followed by whitespace
(`re.search(r"##\s+", content)`)? -/
def hasHashHashWs : List Char → Bool
  | a :: b :: c :: rest => (a = '#' && b = '#' && pyWs c) || hasHashHashWs (b :: c :: rest)
  | _ => false

/-- `is_valid_markdown_format` from `clear_summaries.py`. -/
def is_valid_markdown_format (cell : List Char) : Bool :=
  match searchDetails cell with
  | none => false
  | some g => hasHashHashWs (pyStrip (brToNl (rmSummaries g)))

/-! ## `_normalize_link` (src/scripts/arxiv_crawler.py, lines 85-98) -/

/-- The literal host/path part of the version-stripping pattern. -/
def arxivPat : List Char := "arxiv.org/abs/".toList

/-- Match attempt for
`re.sub(r"(arxiv\.org/abs/(\d+\.\d+))v\d+", r"\1", link, re.IGNORECASE)`:
the replacement keeps the original spelling of the matched prefix and id
and drops the version suffix. -/
def tryArxiv (l : List Char) : Option (List Char × List Char) :=
  if startsWithCI arxivPat l then
    let rest := l.drop arxivPat.length
    let d1 := rest.takeWhile Char.isDigit
    if d1.isEmpty then none else
    match rest.dropWhile Char.isDigit with
    | '.' :: r2 =>
      let d2 := r2.takeWhile Char.isDigit
      if d2.isEmpty then none else
      match r2.dropWhile Char.isDigit with
      | v :: r4 =>
        if v = 'v' || v = 'V' then
          if (r4.takeWhile Char.isDigit).isEmpty then none
          else some (l.take arxivPat.length ++ d1 ++ '.' :: d2, r4.dropWhile Char.isDigit)
        else none
      | [] => none
    | _ => none
  else none

/-- Does the version-suffix pattern match anywhere in the text? -/
def hasArxivMatch : List Char → Bool
  | [] => false
  | c :: cs => (tryArxiv (c :: cs)).isSome || hasArxivMatch cs

/-- `_normalize_link` from `arxiv_crawler.py`. -/
def normalize_link (s : List Char) : List Char :=
  pyStrip (scanSub tryArxiv (pyStrip s).length (pyStrip s))

/-! ## Table codec: `rebuild_line` (generate_summaries.py, lines 71-80 and
clear_summaries.py, lines 28-32) and the per-line parse of
`parse_markdown_table` (build_site.py, lines 51-58) -/

/-- `s.replace("|", "\\|")`. -/
def escPipes (l : List Char) : List Char :=
  l.flatMap (fun c => if c = '|' then ['\\', '|'] else [c])

/-- `rebuild_line`: serialize four fields into one table row. -/
def rebuild_line (d t lk s : List Char) : List Char :=
  "| ".toList ++ d ++ " | ".toList ++ escPipes t ++ " | ".toList ++ lk ++
  " | ".toList ++ escPipes s ++ " |\n".toList

/-- Is the character the column delimiter? -/
def isPipe (c : Char) : Bool := c == '|'

/-- `str.strip("|")`. -/
def stripPipes (l : List Char) : List Char :=
  ((l.dropWhile isPipe).reverse.dropWhile isPipe).reverse

/-- The per-line parse of `parse_markdown_table`: skip non-`|` lines, split
on the delimiter, require at least four parts, and rejoin the trailing
parts into the summary cell. -/
def parse_line (line : List Char) : Option (List Char × List Char × List Char × List Char) :=
  if !startsWith ['|'] (pyStrip line) then none else
  match (splitCh '|' (stripPipes (pyStrip line))).map pyStrip with
  | p0 :: p1 :: p2 :: r3 :: rest =>
    some (p0, p1, p2, pyStrip (List.intercalate ['|'] (r3 :: rest)))
  | _ => none

/-! ## `clear_all_summaries` (clear_summaries.py, lines 64-115) -/

/-- `parse_table_line` from `clear_summaries.py`: cells after dropping
empties and separator cells. -/
def parse_table_line (line : List Char) : List (List Char) :=
  ((splitCh '|' (pyStrip line)).map pyStrip).filter
    (fun p => !p.isEmpty && !(p == "---".toList))

/-- The placeholder sentinel. -/
def placeholderLit : List Char := "待生成".toList

/-- `default_summary_cell`. -/
def default_summary_cell : List Char :=
  "<details><summary>展开</summary>待生成</details>".toList

/-- The per-line body transform of `clear_all_summaries`: the new line and
whether it was cleared. -/
def processLine (l : List Char) : List Char × Bool :=
  if !startsWith ['|'] (pyStrip l) then (l, false) else
  match parse_table_line l with
  | [c0, c1, c2, c3] =>
    if containsSub placeholderLit c3 then (l, false)
    else if is_valid_markdown_format c3 then (l, false)
    else (rebuild_line c0 c1 c2 default_summary_cell, true)
  | _ => (l, false)

/-- The body loop of `clear_all_summaries`: rebuilt body and cleared
count. -/
def clear_body : List (List Char) → List (List Char) × Nat
  | [] => ([], 0)
  | l :: rest =>
    let p := processLine l
    let r := clear_body rest
    (p.1 :: r.1, (if p.2 then 1 else 0) + r.2)

/-! ## Basic lemmas about the string primitives -/

theorem pyLstrip_cons_of_neg (c : Char) (l : List Char) (h : pyWs c = false) :
    pyLstrip (c :: l) = c :: l := by
  simp [pyLstrip, List.dropWhile_cons, h]

theorem pyLstrip_idem (l : List Char) : pyLstrip (pyLstrip l) = pyLstrip l :=
  List.dropWhile_idempotent pyWs l

theorem pyRstrip_concat_of_neg (l : List Char) (x : Char) (h : pyWs x = false) :
    pyRstrip (l ++ [x]) = l ++ [x] := by
  simp [pyRstrip, List.reverse_append, List.dropWhile_cons, h]

theorem head?_dropWhile_neg (p : Char → Bool) (l : List Char) (x : Char)
    (h : (l.dropWhile p).head? = some x) : p x = false := by
  have hne : l.dropWhile p ≠ [] := by
    intro he
    rw [he] at h
    simp at h
  have h2 := List.head_dropWhile_not p l hne
  have h3 : (l.dropWhile p).head hne = x := by
    rw [List.head?_eq_head hne] at h
    exact Option.some.inj h
  rwa [h3] at h2

theorem pyRstrip_getLast? (l : List Char) (x : Char)
    (h : (pyRstrip l).getLast? = some x) : pyWs x = false := by
  unfold pyRstrip at h
  rw [List.getLast?_reverse] at h
  exact head?_dropWhile_neg pyWs l.reverse x h

theorem pyStrip_getLast? (l : List Char) (x : Char)
    (h : (pyStrip l).getLast? = some x) : pyWs x = false := by
  unfold pyStrip pyLstrip at h
  obtain ⟨pre, hpre⟩ := List.dropWhile_suffix (l := pyRstrip l) pyWs
  apply pyRstrip_getLast? l x
  rw [← hpre, List.getLast?_append, h]
  rfl

theorem pyRstrip_eq_self_of_getLast? (l : List Char)
    (h : ∀ x, l.getLast? = some x → pyWs x = false) : pyRstrip l = l := by
  rcases List.eq_nil_or_concat l with rfl | ⟨L, b, rfl⟩
  · rfl
  · have hb : pyWs b = false := h b (by simp [List.concat_eq_append])
    simpa [List.concat_eq_append] using pyRstrip_concat_of_neg L b hb

theorem pyStrip_idem (l : List Char) : pyStrip (pyStrip l) = pyStrip l := by
  have h1 : pyRstrip (pyStrip l) = pyStrip l :=
    pyRstrip_eq_self_of_getLast? _ (fun x hx => pyStrip_getLast? l x hx)
  show pyLstrip (pyRstrip (pyStrip l)) = pyStrip l
  rw [h1]
  show pyLstrip (pyLstrip (pyRstrip l)) = _
  rw [pyLstrip_idem]
  rfl

theorem scanSub_eq_self (tf : List Char → Option (List Char × List Char)) (n : Nat)
    (l : List Char) (h : ∀ l', l' <:+ l → tf l' = none) : scanSub tf n l = l := by
  induction n generalizing l with
  | zero => rfl
  | succ n ih =>
    cases l with
    | nil => rfl
    | cons c cs =>
      have h0 : tf (c :: cs) = none := h (c :: cs) (List.suffix_refl _)
      simp only [scanSub, h0]
      rw [ih cs (fun l' hl' => h l' (hl'.trans (List.suffix_cons c cs)))]

theorem replaceSubF_eq_self (pat rep : List Char) (n : Nat) (l : List Char)
    (h : containsSub pat l = false) : replaceSubF pat rep n l = l := by
  induction n generalizing l with
  | zero => rfl
  | succ n ih =>
    cases l with
    | nil => rfl
    | cons c cs =>
      rw [containsSub] at h
      obtain ⟨h1, h2⟩ := Bool.or_eq_false_iff.mp h
      simp only [replaceSubF, h1, Bool.false_eq_true, if_false]
      rw [ih cs h2]

theorem rmSummariesF_eq_self (n : Nat) (l : List Char)
    (h : splitFirstCI ("<summary>".toList) l = none) : rmSummariesF n l = l := by
  cases n with
  | zero => rfl
  | succ n => simp only [rmSummariesF, h]

/-! ## C3: payload-extraction fallback -/

/-- C3 counterexample: the cell `a<br>b` contains no details wrapper, yet
`extract_details` rewrites it (the break marker becomes a newline). -/
theorem extract_details_changes_without_wrapper :
    searchDetails ("a<br>b".toList) = none ∧
    extract_details ("a<br>b".toList) ≠ "a<br>b".toList := by
  constructor
  · decide
  · decide

/-- C3 amended: when the cell contains no details wrapper, no summary
block, none of the three break-marker spellings, and carries no
surrounding whitespace, `extract_details` returns it unchanged. -/
theorem extract_details_id_of_inert (cell : List Char)
    (hdet : searchDetails cell = none)
    (hsum : splitFirstCI ("<summary>".toList) cell = none)
    (hbr1 : containsSub ("<br>".toList) cell = false)
    (hbr2 : containsSub ("<br/>".toList) cell = false)
    (hbr3 : containsSub ("<br />".toList) cell = false)
    (hstrip : pyStrip cell = cell) :
    extract_details cell = cell := by
  unfold extract_details
  rw [hdet]
  show pyStrip (brToNl (rmSummaries cell)) = cell
  unfold rmSummaries
  rw [rmSummariesF_eq_self _ _ hsum]
  unfold brToNl replaceSub
  rw [replaceSubF_eq_self _ _ _ _ hbr1, replaceSubF_eq_self _ _ _ _ hbr2,
      replaceSubF_eq_self _ _ _ _ hbr3]
  exact hstrip

/-- Witness for the amended C3 theorem at a concrete inert cell. -/
theorem extract_details_id_of_inert_witness :
    searchDetails ("plain text".toList) = none ∧
    extract_details ("plain text".toList) = "plain text".toList :=
  ⟨by decide,
   extract_details_id_of_inert ("plain text".toList) (by decide) (by decide) (by decide)
     (by decide) (by decide) (by decide)⟩

/-! ## C4: link normalization -/

theorem tryArxiv_none_of_hasArxivMatch (l : List Char) (h : hasArxivMatch l = false) :
    ∀ l', l' <:+ l → tryArxiv l' = none := by
  induction l with
  | nil =>
    intro l' hl'
    rw [List.suffix_nil.mp hl']
    decide
  | cons c cs ih =>
    rw [hasArxivMatch] at h
    obtain ⟨h1, h2⟩ := Bool.or_eq_false_iff.mp h
    intro l' hl'
    rcases List.suffix_cons_iff.mp hl' with rfl | hl2
    · cases ht : tryArxiv (c :: cs) with
      | none => rfl
      | some v => rw [ht] at h1; simp at h1
    · exact ih h2 l' hl2

/-- C4 amended: `_normalize_link` is idempotent on every string whose
normalization leaves no residual version-suffix occurrence (it is not a
projection in general: a second version suffix directly after the first
survives one pass); and the two fixed inputs both normalize to the
version-free link. -/
theorem normalize_link_projection :
    (∀ s : List Char, hasArxivMatch (normalize_link s) = false →
        normalize_link (normalize_link s) = normalize_link s) ∧
    normalize_link ("http://arxiv.org/abs/2510.09607v2".toList) =
      "http://arxiv.org/abs/2510.09607".toList ∧
    normalize_link ("http://arxiv.org/abs/2510.09607v1".toList) =
      "http://arxiv.org/abs/2510.09607".toList := by
  refine ⟨?_, by decide, by decide⟩
  intro s h
  have hy : pyStrip (normalize_link s) = normalize_link s := by
    unfold normalize_link
    exact pyStrip_idem _
  show pyStrip (scanSub tryArxiv (pyStrip (normalize_link s)).length
      (pyStrip (normalize_link s))) = normalize_link s
  rw [hy, scanSub_eq_self _ _ _ (tryArxiv_none_of_hasArxivMatch _ h), hy]

/-- C4 counterexample: on a link carrying two version suffixes, one
normalization pass strips only the first, so normalization is not a
projection on all strings. -/
theorem normalize_link_projection_counterexample :
    normalize_link (normalize_link ("http://arxiv.org/abs/1.2v3v4".toList)) ≠
      normalize_link ("http://arxiv.org/abs/1.2v3v4".toList) := by
  decide

/-- Witness for the amended C4 theorem at the spec's fixed input. -/
theorem normalize_link_projection_witness :
    hasArxivMatch (normalize_link ("http://arxiv.org/abs/2510.09607v2".toList)) = false ∧
    normalize_link (normalize_link ("http://arxiv.org/abs/2510.09607v2".toList)) =
      normalize_link ("http://arxiv.org/abs/2510.09607v2".toList) :=
  ⟨by decide, normalize_link_projection.1 _ (by decide)⟩

/-! ## C2: table round-trip -/

theorem escPipes_eq_self (l : List Char) (h : '|' ∉ l) : escPipes l = l := by
  induction l with
  | nil => rfl
  | cons c cs ih =>
    have hc : ¬ (c = '|') := fun he => h (he ▸ List.mem_cons_self c cs)
    have ih' := ih (fun hm => h (List.mem_cons_of_mem c hm))
    simp only [escPipes, List.flatMap_cons] at ih' ⊢
    rw [if_neg hc, ih']
    rfl

theorem splitCh_of_not_mem (sep : Char) (l : List Char) (h : sep ∉ l) :
    splitCh sep l = [l] := by
  induction l with
  | nil => rfl
  | cons c cs ih =>
    have hc : ¬ (c = sep) := fun he => h (he ▸ List.mem_cons_self c cs)
    have ih' := ih (fun hm => h (List.mem_cons_of_mem c hm))
    simp only [splitCh, if_neg hc, ih']

theorem splitCh_append_sep (sep : Char) (a b : List Char) (h : sep ∉ a) :
    splitCh sep (a ++ sep :: b) = a :: splitCh sep b := by
  induction a with
  | nil => simp [splitCh]
  | cons c cs ih =>
    have hc : ¬ (c = sep) := fun he => h (he ▸ List.mem_cons_self c cs)
    have ih' := ih (fun hm => h (List.mem_cons_of_mem c hm))
    simp only [List.cons_append, splitCh, if_neg hc, List.append_eq, ih']

theorem pyRstrip_append_ws (l : List Char) (x : Char) (h : pyWs x = true) :
    pyRstrip (l ++ [x]) = pyRstrip l := by
  simp [pyRstrip, List.reverse_append, List.dropWhile_cons, h]

theorem strip_invariant_parts (x : List Char) (h : pyStrip x = x) :
    pyLstrip x = x ∧ pyRstrip x = x := by
  have hr : pyRstrip x = x := by
    have hsub : (List.dropWhile pyWs x.reverse).Sublist x.reverse := List.dropWhile_sublist pyWs
    have hlen1 : (pyStrip x).length ≤ (pyRstrip x).length := by
      show (pyLstrip (pyRstrip x)).length ≤ _
      exact (List.dropWhile_sublist pyWs).length_le
    have hlen2 : (pyRstrip x).length ≤ x.length := by
      show ((List.dropWhile pyWs x.reverse).reverse).length ≤ _
      rw [List.length_reverse]
      calc (List.dropWhile pyWs x.reverse).length ≤ x.reverse.length := hsub.length_le
        _ = x.length := List.length_reverse x
    rw [h] at hlen1
    have hlen : (List.dropWhile pyWs x.reverse).length = x.reverse.length := by
      have : (pyRstrip x).length = x.length := le_antisymm hlen2 hlen1
      unfold pyRstrip at this
      rw [List.length_reverse] at this
      rw [this, List.length_reverse]
    have : List.dropWhile pyWs x.reverse = x.reverse := hsub.eq_of_length hlen
    unfold pyRstrip
    rw [this, List.reverse_reverse]
  refine ⟨?_, hr⟩
  have := h
  unfold pyStrip at this
  rw [hr] at this
  exact this

theorem pyStrip_pad (x : List Char) (h : pyStrip x = x) :
    pyStrip (' ' :: x ++ [' ']) = x := by
  obtain ⟨hl, hr⟩ := strip_invariant_parts x h
  rcases List.eq_nil_or_concat x with rfl | ⟨L, b, rfl⟩
  · decide
  · rw [List.concat_eq_append] at *
    have hb : pyWs b = false := by
      apply pyRstrip_getLast? (L ++ [b])
      rw [hr]
      exact List.getLast?_concat L
    show pyLstrip (pyRstrip ((' ' :: (L ++ [b])) ++ [' '])) = L ++ [b]
    rw [pyRstrip_append_ws _ ' ' (by decide)]
    have : (' ' :: (L ++ [b])) = (' ' :: L) ++ [b] := by simp
    rw [this, pyRstrip_concat_of_neg _ _ hb]
    show pyLstrip (' ' :: (L ++ [b])) = L ++ [b]
    unfold pyLstrip
    rw [List.dropWhile_cons, if_pos (by decide)]
    exact hl

/-- C2 counterexample: with a delimiter in the title, the serialized row
does not parse back to the record — the backslash escape is not honoured
by the split, and nothing is unescaped. -/
theorem table_roundtrip_counterexample :
    parse_line (rebuild_line ("d".toList) ("a|b".toList) ("l".toList) ("s".toList)) =
      some ("d".toList, "a\\".toList, "b".toList, "l|s".toList) ∧
    parse_line (rebuild_line ("d".toList) ("a|b".toList) ("l".toList) ("s".toList)) ≠
      some ("d".toList, "a|b".toList, "l".toList, "s".toList) := by
  constructor
  · decide
  · decide

/-- C2 amended: the round-trip law holds for records whose four fields
contain no delimiter character at all and carry no surrounding
whitespace (the delimiter-escaping branch never round-trips, since the
parser splits on every delimiter and never unescapes). -/
theorem stripPipes_wrap (R : List Char) :
    stripPipes ('|' :: (' ' :: R ++ [' ']) ++ ['|']) = ' ' :: R ++ [' '] := by
  unfold stripPipes
  have h1 : ('|' :: (' ' :: R ++ [' ']) ++ ['|']).dropWhile isPipe =
      (' ' :: R ++ [' ']) ++ ['|'] := by
    simp only [List.cons_append, List.dropWhile_cons]
    simp [isPipe]
  rw [h1]
  have h2 : ((' ' :: R ++ [' ']) ++ ['|']).reverse = '|' :: ' ' :: R.reverse ++ [' '] := by
    simp
  rw [h2]
  have h3 : ('|' :: ' ' :: R.reverse ++ [' ']).dropWhile isPipe = ' ' :: R.reverse ++ [' '] := by
    simp only [List.cons_append, List.dropWhile_cons]
    simp [isPipe]
  rw [h3]
  simp

theorem table_roundtrip (d t lk s : List Char)
    (hd1 : '|' ∉ d) (hd2 : pyStrip d = d)
    (ht1 : '|' ∉ t) (ht2 : pyStrip t = t)
    (hl1 : '|' ∉ lk) (hl2 : pyStrip lk = lk)
    (hs1 : '|' ∉ s) (hs2 : pyStrip s = s) :
    parse_line (rebuild_line d t lk s) = some (d, t, lk, s) := by
  have hesct := escPipes_eq_self t ht1
  have hescs := escPipes_eq_self s hs1
  have hline : rebuild_line d t lk s =
      ('|' :: ((' ' :: d ++ [' ']) ++ '|' :: ((' ' :: t ++ [' ']) ++ '|' ::
        ((' ' :: lk ++ [' ']) ++ '|' :: (' ' :: s ++ [' '])))) ++ ['|']) ++ ['\n'] := by
    unfold rebuild_line
    rw [hesct, hescs]
    simp
  have hstrip : pyStrip (rebuild_line d t lk s) =
      '|' :: ((' ' :: d ++ [' ']) ++ '|' :: ((' ' :: t ++ [' ']) ++ '|' ::
        ((' ' :: lk ++ [' ']) ++ '|' :: (' ' :: s ++ [' '])))) ++ ['|'] := by
    rw [hline]
    show pyLstrip (pyRstrip _) = _
    rw [pyRstrip_append_ws _ '\n' (by decide), pyRstrip_concat_of_neg _ '|' (by decide)]
    exact pyLstrip_cons_of_neg _ _ (by decide)
  have hM : ((' ' :: d ++ [' ']) ++ '|' :: ((' ' :: t ++ [' ']) ++ '|' ::
      ((' ' :: lk ++ [' ']) ++ '|' :: (' ' :: s ++ [' '])))) =
      ' ' :: (d ++ [' ', '|', ' '] ++ t ++ [' ', '|', ' '] ++ lk ++ [' ', '|', ' '] ++ s)
        ++ [' '] := by
    simp
  have hpipes : stripPipes (pyStrip (rebuild_line d t lk s)) =
      (' ' :: d ++ [' ']) ++ '|' :: ((' ' :: t ++ [' ']) ++ '|' ::
        ((' ' :: lk ++ [' ']) ++ '|' :: (' ' :: s ++ [' ']))) := by
    rw [hstrip, hM, stripPipes_wrap, ← hM]
  have hsplit : splitCh '|' (stripPipes (pyStrip (rebuild_line d t lk s))) =
      [' ' :: d ++ [' '], ' ' :: t ++ [' '], ' ' :: lk ++ [' '], ' ' :: s ++ [' ']] := by
    rw [hpipes]
    have hmem : ∀ x : List Char, '|' ∉ x → ('|' : Char) ∉ ' ' :: x ++ [' '] := by
      intro x hx hmemx
      rcases List.mem_cons.mp hmemx with he | hm
      · exact absurd he.symm (by decide)
      · rcases List.mem_append.mp hm with h' | h'
        · exact hx h'
        · simp at h'
    rw [splitCh_append_sep _ _ _ (hmem d hd1), splitCh_append_sep _ _ _ (hmem t ht1),
        splitCh_append_sep _ _ _ (hmem lk hl1), splitCh_of_not_mem _ _ (hmem s hs1)]
  have hparts : (splitCh '|' (stripPipes (pyStrip (rebuild_line d t lk s)))).map pyStrip =
      [d, t, lk, s] := by
    rw [hsplit]
    simp only [List.map_cons, List.map_nil]
    rw [pyStrip_pad d hd2, pyStrip_pad t ht2, pyStrip_pad lk hl2, pyStrip_pad s hs2]
  have hsw : startsWith ['|'] (pyStrip (rebuild_line d t lk s)) = true := by
    rw [hstrip]
    rfl
  unfold parse_line
  rw [hsw, hparts]
  show some (d, t, lk, pyStrip (List.intercalate ['|'] [s])) = some (d, t, lk, s)
  have : List.intercalate ['|'] [s] = s := by
    simp [List.intercalate]
  rw [this, hs2]

/-- Witness for the amended C2 theorem at a concrete record. -/
theorem table_roundtrip_witness :
    ('|' : Char) ∉ ("2025-09-26".toList) ∧ pyStrip ("2025-09-26".toList) = "2025-09-26".toList ∧
    parse_line (rebuild_line ("2025-09-26".toList) ("Example Title".toList)
        ("https://arxiv.org/abs/2509.12345".toList) ("<details>x</details>".toList)) =
      some ("2025-09-26".toList, "Example Title".toList,
        "https://arxiv.org/abs/2509.12345".toList, "<details>x</details>".toList) :=
  ⟨by decide, by decide,
   table_roundtrip _ _ _ _ (by decide) (by decide) (by decide) (by decide) (by decide)
     (by decide) (by decide) (by decide)⟩

/-! ## C9: output normal form of recovery -/

/-- Does the text contain a run of three consecutive newlines? -/
def hasTriple : List Char → Bool
  | a :: b :: c :: rest => (a = '\n' && b = '\n' && c = '\n') || hasTriple (b :: c :: rest)
  | _ => false

theorem hasTriple_cons_of (c : Char) (l : List Char) (h : hasTriple l = true) :
    hasTriple (c :: l) = true := by
  match l with
  | [] => simp [hasTriple] at h
  | [a] => simp [hasTriple] at h
  | a :: b :: rest => simp [hasTriple, h]

theorem hasTriple_cons_ne (c : Char) (l : List Char) (hc : ¬ c = '\n') :
    hasTriple (c :: l) = hasTriple l := by
  match l with
  | [] => simp [hasTriple]
  | [a] => simp [hasTriple]
  | a :: b :: rest => simp [hasTriple, hc]

theorem hasTriple_cons_cons_ne (a b : Char) (l : List Char) (hb : ¬ b = '\n') :
    hasTriple (a :: b :: l) = hasTriple (b :: l) := by
  match l with
  | [] => simp [hasTriple]
  | c :: rest => simp [hasTriple, hb]

theorem hasTriple_tail (c : Char) (l : List Char) (h : hasTriple (c :: l) = false) :
    hasTriple l = false := by
  match l with
  | [] => rfl
  | [a] => rfl
  | a :: b :: rest =>
    rw [hasTriple] at h
    exact (Bool.or_eq_false_iff.mp h).2

theorem hasTriple_append_right (a b : List Char) (h : hasTriple b = true) :
    hasTriple (a ++ b) = true := by
  induction a with
  | nil => simpa using h
  | cons c cs ih => exact hasTriple_cons_of c (cs ++ b) ih

theorem hasTriple_append_left (a b : List Char) (h : hasTriple a = true) :
    hasTriple (a ++ b) = true := by
  induction a with
  | nil => simp [hasTriple] at h
  | cons x xs ih =>
    match xs, h with
    | [], h => simp [hasTriple] at h
    | [u], h => simp [hasTriple] at h
    | u :: v :: vs, h =>
      rw [hasTriple] at h
      rcases Bool.or_eq_true_iff.mp h with h1 | h2
      · obtain ⟨⟨hx, hu⟩, hv⟩ := by simpa using h1
        subst hx hu hv
        simp [hasTriple]
      · exact hasTriple_cons_of x _ (ih h2)

theorem hasTriple_suffix (l l' : List Char) (h : hasTriple l = false) (hs : l' <:+ l) :
    hasTriple l' = false := by
  obtain ⟨pre, rfl⟩ := hs
  by_contra hne
  rw [hasTriple_append_right pre l' (Bool.of_not_eq_false hne)] at h
  simp at h

theorem hasTriple_prefix (l l' : List Char) (h : hasTriple l = false) (hs : l' <+: l) :
    hasTriple l' = false := by
  obtain ⟨post, rfl⟩ := hs
  by_contra hne
  rw [hasTriple_append_left l' post (Bool.of_not_eq_false hne)] at h
  simp at h

theorem pyRstrip_isPrefixOf (l : List Char) : pyRstrip l <+: l := by
  unfold pyRstrip
  obtain ⟨pre, hpre⟩ := List.dropWhile_suffix (l := l.reverse) pyWs
  refine ⟨pre.reverse, ?_⟩
  have := congrArg List.reverse hpre
  simpa using this

theorem hasTriple_pyStrip (l : List Char) (h : hasTriple l = false) :
    hasTriple (pyStrip l) = false := by
  have h1 : hasTriple (pyRstrip l) = false :=
    hasTriple_prefix l _ h (pyRstrip_isPrefixOf l)
  exact hasTriple_suffix _ _ h1 (List.dropWhile_suffix pyWs)

theorem collapse_head? (n : Nat) (l : List Char) :
    (scanSub tryCollapse n l).head? = l.head? := by
  cases n with
  | zero => rfl
  | succ n =>
    cases l with
    | nil => rfl
    | cons c cs =>
      cases ht : tryCollapse (c :: cs) with
      | none => simp [scanSub, ht]
      | some pr =>
        simp only [scanSub, ht]
        unfold tryCollapse at ht
        split at ht
        · rename_i htake
          have hc : c = '\n' := by
            rw [List.take_succ_cons] at htake
            exact (List.cons.inj htake).1
          cases ht
          simp [hc]
        · cases ht

theorem collapse_ne_nil (n : Nat) (l : List Char) (h : l ≠ []) :
    scanSub tryCollapse n l ≠ [] := by
  intro he
  have hh := collapse_head? n l
  rw [he] at hh
  cases l with
  | nil => exact h rfl
  | cons c cs => simp at hh

theorem collapse_nil (n : Nat) : scanSub tryCollapse n ([] : List Char) = [] := by
  cases n <;> rfl

theorem tryCollapse_none_of_second (ds : List Char) (h : ds.head? ≠ some '\n') :
    tryCollapse ('\n' :: ds) = none := by
  unfold tryCollapse
  rw [if_neg]
  intro htake
  cases ds with
  | nil => simp at htake
  | cons e es =>
    rw [List.take_succ_cons, List.take_succ_cons] at htake
    have he : e = '\n' := (List.cons.inj (List.cons.inj htake).2).1
    exact h (by rw [he]; rfl)

theorem collapse_second (n : Nat) (ds : List Char) (h : ds.head? ≠ some '\n') :
    (scanSub tryCollapse n ('\n' :: ds)).tail.head? = ds.head? := by
  cases n with
  | zero => rfl
  | succ m =>
    have htc := tryCollapse_none_of_second ds h
    simp only [scanSub, htc]
    exact collapse_head? m ds

theorem collapse_noTriple (n : Nat) (l : List Char) (hn : l.length ≤ n) :
    hasTriple (scanSub tryCollapse n l) = false := by
  induction n generalizing l with
  | zero =>
    have : l = [] := List.length_eq_zero.mp (Nat.le_zero.mp hn)
    subst this
    rfl
  | succ n ih =>
    cases l with
    | nil => rfl
    | cons c cs =>
      cases ht : tryCollapse (c :: cs) with
      | some pr =>
        simp only [scanSub, ht]
        unfold tryCollapse at ht
        split at ht
        case isFalse => cases ht
        rename_i htake
        cases ht
        show hasTriple (['\n', '\n'] ++
          scanSub tryCollapse n ((c :: cs).dropWhile (fun x => decide (x = '\n')))) = false
        have hrlen : ((c :: cs).dropWhile (fun x => decide (x = '\n'))).length ≤ n := by
          have hc : c = '\n' := by
            rw [List.take_succ_cons] at htake
            exact (List.cons.inj htake).1
          rw [hc, List.dropWhile_cons]
          simp only [decide_True, if_true]
          calc (cs.dropWhile (fun x => decide (x = '\n'))).length ≤ cs.length :=
                (List.dropWhile_sublist _).length_le
            _ ≤ n := by simpa using hn
        have hout := ih _ hrlen
        cases hr : (c :: cs).dropWhile (fun x => decide (x = '\n')) with
        | nil =>
          rw [collapse_nil]
          decide
        | cons d w' =>
          have hd : ¬ d = '\n' := by
            have hh : ((c :: cs).dropWhile (fun x => decide (x = '\n'))).head? = some d := by
              rw [hr]; rfl
            have := head?_dropWhile_neg (fun x => decide (x = '\n')) (c :: cs) d hh
            simpa using this
          rw [hr] at hout
          have hne2 : scanSub tryCollapse n (d :: w') ≠ [] := collapse_ne_nil n _ (by simp)
          obtain ⟨e, es, hes0⟩ := List.exists_cons_of_ne_nil hne2
          have he : e = d := by
            have hh := collapse_head? n (d :: w')
            rw [hes0] at hh
            simpa using hh
          have hes : scanSub tryCollapse n (d :: w') = d :: es := by rw [hes0, he]
          rw [hes] at hout ⊢
          show hasTriple ('\n' :: '\n' :: d :: es) = false
          rw [hasTriple, hasTriple_cons_cons_ne _ _ _ hd]
          simp [hd, hout]
      | none =>
        simp only [scanSub, ht]
        have hlen : cs.length ≤ n := by simpa using hn
        have hout := ih cs hlen
        by_cases hc : c = '\n'
        · subst hc
          cases cs with
          | nil =>
            rw [collapse_nil]
            decide
          | cons d ds =>
            have hne2 : scanSub tryCollapse n (d :: ds) ≠ [] := collapse_ne_nil n _ (by simp)
            obtain ⟨e, es, hes0⟩ := List.exists_cons_of_ne_nil hne2
            have he : e = d := by
              have hh := collapse_head? n (d :: ds)
              rw [hes0] at hh
              simpa using hh
            have hes : scanSub tryCollapse n (d :: ds) = d :: es := by rw [hes0, he]
            rw [hes] at hout ⊢
            by_cases hd : d = '\n'
            · subst hd
              have hds : ds.head? ≠ some '\n' := by
                intro hdsh
                cases ds with
                | nil => simp at hdsh
                | cons f fs =>
                  have hf : f = '\n' := by simpa using hdsh
                  subst hf
                  unfold tryCollapse at ht
                  rw [if_pos (show List.take 3 ('\n' :: '\n' :: '\n' :: fs) =
                    ['\n', '\n', '\n'] from rfl)] at ht
                  cases ht
              have hsecond := collapse_second n ds hds
              rw [hes] at hsecond
              simp only [List.tail_cons] at hsecond
              cases es with
              | nil => decide
              | cons f fs =>
                have hf : ¬ f = '\n' := by
                  intro hfe
                  rw [hfe] at hsecond
                  cases ds with
                  | nil => simp at hsecond
                  | cons g gs =>
                    have hg : g = '\n' := by simpa using hsecond.symm
                    exact hds (by rw [hg]; rfl)
                rw [hasTriple, hasTriple_cons_cons_ne _ _ _ hf]
                rw [hasTriple_cons_cons_ne _ _ _ hf] at hout
                simp [hf, hout]
            · rw [hasTriple_cons_cons_ne _ _ _ hd]
              exact hout
        · rw [hasTriple_cons_ne _ _ hc]
          exact hout

theorem collapse_eq_self (n : Nat) (l : List Char) (h : hasTriple l = false) :
    scanSub tryCollapse n l = l := by
  induction n generalizing l with
  | zero => rfl
  | succ n ih =>
    cases l with
    | nil => rfl
    | cons c cs =>
      have ht : tryCollapse (c :: cs) = none := by
        unfold tryCollapse
        rw [if_neg]
        intro htake
        cases cs with
        | nil => simp at htake
        | cons b bs =>
          cases bs with
          | nil => simp at htake
          | cons e es =>
            rw [List.take_succ_cons, List.take_succ_cons, List.take_succ_cons] at htake
            have hc : c = '\n' := (List.cons.inj htake).1
            have hb : b = '\n' := (List.cons.inj (List.cons.inj htake).2).1
            have he : e = '\n' := (List.cons.inj (List.cons.inj (List.cons.inj htake).2).2).1
            subst hc hb he
            simp [hasTriple] at h
      simp only [scanSub, ht]
      rw [ih cs (hasTriple_tail c cs h)]

/-- C9: both recovery branches end by collapsing newline runs and trimming,
so the output of `auto_add_linebreaks` never contains three consecutive
newlines and carries no leading or trailing whitespace. -/
theorem recover_output_normal_form (s : List Char) :
    hasTriple (auto_add_linebreaks s) = false ∧
    pyStrip (auto_add_linebreaks s) = auto_add_linebreaks s := by
  have key : ∀ x : List Char, hasTriple (pyStrip (collapseNl x)) = false ∧
      pyStrip (pyStrip (collapseNl x)) = pyStrip (collapseNl x) := by
    intro x
    constructor
    · unfold collapseNl
      exact hasTriple_pyStrip _ (collapse_noTriple x.length x le_rfl)
    · exact pyStrip_idem _
  unfold auto_add_linebreaks
  split
  · exact ⟨(key _).1, (key _).2⟩
  · exact ⟨(key _).1, (key _).2⟩

/-! ## C1: idempotence of the line-break recoverer -/

theorem mem_pyStrip_sub (l : List Char) (c : Char) (h : c ∈ pyStrip l) : c ∈ l := by
  unfold pyStrip pyLstrip at h
  have h1 : c ∈ pyRstrip l := (List.dropWhile_sublist pyWs).subset h
  unfold pyRstrip at h1
  rw [List.mem_reverse] at h1
  have h3 : c ∈ l.reverse := (List.dropWhile_sublist pyWs).subset h1
  simpa using h3

theorem mem_collapse_sub (n : Nat) (l : List Char) (c : Char)
    (h : c ∈ scanSub tryCollapse n l) : c ∈ l := by
  induction n generalizing l with
  | zero => exact h
  | succ n ih =>
    cases l with
    | nil =>
      simp [scanSub] at h
    | cons a cs =>
      cases ht : tryCollapse (a :: cs) with
      | some pr =>
        simp only [scanSub, ht] at h
        unfold tryCollapse at ht
        split at ht
        case isFalse => cases ht
        rename_i htake
        cases ht
        rcases List.mem_append.mp h with hL | hR
        · have hc : c = '\n' := by
            rcases List.mem_cons.mp hL with rfl | hL2
            · rfl
            · simpa using hL2
          have ha : a = '\n' := by
            rw [List.take_succ_cons] at htake
            exact (List.cons.inj htake).1
          rw [hc, ← ha]
          exact List.mem_cons_self a cs
        · have h5 : c ∈ List.dropWhile (fun x => decide (x = '\n')) (a :: cs) := ih _ hR
          exact (List.dropWhile_sublist _).subset h5
      | none =>
        simp only [scanSub, ht] at h
        rcases List.mem_cons.mp h with rfl | h2
        · exact List.mem_cons_self c cs
        · exact List.mem_cons_of_mem a (ih cs h2)

theorem mem_collapseNl_sub (l : List Char) (c : Char) (h : c ∈ collapseNl l) : c ∈ l := by
  unfold collapseNl at h
  exact mem_collapse_sub l.length l c h

theorem headsAt_hash (x : List Char) (h : headsAt x = true) : '#' ∈ x := by
  cases x with
  | nil => simp [headsAt] at h
  | cons c cs =>
    have hc : c = '#' := by
      unfold headsAt at h
      simp only [Bool.and_eq_true] at h
      simpa using h.1
    rw [← hc]
    exact List.mem_cons_self c cs

theorem tryHeading_none (l : List Char) (h : '#' ∉ l) : tryHeading l = none := by
  cases l with
  | nil => rfl
  | cons c cs =>
    simp only [tryHeading]
    rw [if_neg]
    intro hcond
    simp only [Bool.and_eq_true] at hcond
    have := headsAt_hash _ hcond.2
    exact h (List.mem_cons_of_mem c ((List.dropWhile_sublist pyWs).subset this))

theorem tryHrA_none (l : List Char) (h : '-' ∉ l) : tryHrA l = none := by
  cases l with
  | nil => rfl
  | cons c1 r0 =>
    simp only [tryHrA]
    by_cases hc : c1 = '\n'
    · rw [if_pos hc]
    · rw [if_neg hc]
      split
      · rename_i r2 heq
        exfalso
        have hm : '-' ∈ r0.dropWhile pyWs := by rw [heq]; simp
        exact h (List.mem_cons_of_mem c1 ((List.dropWhile_sublist pyWs).subset hm))
      · rfl

theorem tryHrB_none (l : List Char) (h : '-' ∉ l) : tryHrB l = none := by
  simp only [tryHrB]
  split
  · rename_i r2 heq
    exfalso
    have hm : '-' ∈ l.dropWhile pyWs := by rw [heq]; simp
    exact h ((List.dropWhile_sublist pyWs).subset hm)
  · rfl

theorem tryDash_none (l : List Char) (h1 : '-' ∉ l) (h2 : '–' ∉ l) : tryDash l = none := by
  cases l with
  | nil => rfl
  | cons c cs =>
    simp only [tryDash]
    by_cases hws : pyWs c = true
    · rw [if_pos hws]
      split
      · rename_i d r2 heq
        rw [if_neg]
        intro hd
        have hm : d ∈ (c :: cs).dropWhile pyWs := by rw [heq]; simp
        have hmem : d ∈ c :: cs := (List.dropWhile_sublist pyWs).subset hm
        rcases Bool.or_eq_true_iff.mp hd with hd1 | hd1
        · have hdeq : d = '-' := by simpa using hd1
          rw [hdeq] at hmem
          exact h1 hmem
        · have hdeq : d = '–' := by simpa using hd1
          rw [hdeq] at hmem
          exact h2 hmem
      · rfl
    · rw [if_neg hws]

theorem tryOl_none (p2 p1 : Option Char) (l : List Char)
    (h : ∀ c ∈ l, c.isDigit = false) : tryOl p2 p1 l = none := by
  unfold tryOl
  by_cases hlb : (p1 = some '\n' || (p2 = some '*' && p1 = some '*')) = true
  · rw [if_pos hlb]
  · rw [if_neg hlb]
    have hds : ((l.dropWhile pyWs).takeWhile Char.isDigit).isEmpty = true := by
      cases hh : (l.dropWhile pyWs).takeWhile Char.isDigit with
      | nil => rfl
      | cons d ds' =>
        exfalso
        have hdmem : d ∈ (l.dropWhile pyWs).takeWhile Char.isDigit := by rw [hh]; simp
        have hdig : d.isDigit = true := List.mem_takeWhile_imp hdmem
        have hmem : d ∈ l :=
          (List.dropWhile_sublist pyWs).subset ((List.takeWhile_sublist _).subset hdmem)
        rw [h d hmem] at hdig
        exact absurd hdig (by simp)
    rw [if_pos hds]

theorem tryBoldItem_none (l : List Char) (h : '-' ∉ l) : tryBoldItem l = none := by
  cases l with
  | nil => rfl
  | cons c cs =>
    simp only [tryBoldItem]
    by_cases hws : pyWs c = true
    · rw [if_pos hws]
      split
      · rename_i r2 heq
        exfalso
        have hm : '-' ∈ (c :: cs).dropWhile pyWs := by rw [heq]; simp
        exact h ((List.dropWhile_sublist pyWs).subset hm)
      · rfl
    · rw [if_neg hws]

theorem tryPunct_none (l : List Char) (h : '#' ∉ l) : tryPunct l = none := by
  cases l with
  | nil => rfl
  | cons p rest =>
    simp only [tryPunct]
    by_cases hp : (p = '。' || p = '！' || p = '？' || p = '；') = true
    · rw [if_pos hp]
      split
      · rename_i tl heq
        exfalso
        have hm : '#' ∈ rest.dropWhile pyWs := by rw [heq]; simp
        exact h (List.mem_cons_of_mem p ((List.dropWhile_sublist pyWs).subset hm))
      · rfl
    · rw [if_neg hp]

theorem hashLeadFix_id (t : List Char) (h : '#' ∉ t) : hashLeadFix t = t := by
  simp only [hashLeadFix]
  split
  · rfl
  · rw [if_neg]
    intro hcond
    exact h ((List.dropWhile_sublist pyWs).subset (headsAt_hash _ hcond))

theorem headingSub_id (l : List Char) (h : '#' ∉ l) : headingSub l = l :=
  scanSub_eq_self _ _ _ (fun l' hl' => tryHeading_none l' (fun hm => h (hl'.subset hm)))

theorem hrASub_id (l : List Char) (h : '-' ∉ l) : hrASub l = l :=
  scanSub_eq_self _ _ _ (fun l' hl' => tryHrA_none l' (fun hm => h (hl'.subset hm)))

theorem hrBSub_id (l : List Char) (h : '-' ∉ l) : hrBSub l = l :=
  scanSub_eq_self _ _ _ (fun l' hl' => tryHrB_none l' (fun hm => h (hl'.subset hm)))

theorem dashSub_id (l : List Char) (h1 : '-' ∉ l) (h2 : '–' ∉ l) : dashSub l = l :=
  scanSub_eq_self _ _ _ (fun l' hl' =>
    tryDash_none l' (fun hm => h1 (hl'.subset hm)) (fun hm => h2 (hl'.subset hm)))

theorem boldItemSub_id (l : List Char) (h : '-' ∉ l) : boldItemSub l = l :=
  scanSub_eq_self _ _ _ (fun l' hl' => tryBoldItem_none l' (fun hm => h (hl'.subset hm)))

theorem punctSub_id (l : List Char) (h : '#' ∉ l) : punctSub l = l :=
  scanSub_eq_self _ _ _ (fun l' hl' => tryPunct_none l' (fun hm => h (hl'.subset hm)))

theorem olSubF_id (n : Nat) (p2 p1 : Option Char) (l : List Char)
    (h : ∀ c ∈ l, c.isDigit = false) : olSubF n p2 p1 l = l := by
  induction n generalizing l p2 p1 with
  | zero => rfl
  | succ n ih =>
    cases l with
    | nil => rfl
    | cons c cs =>
      simp only [olSubF, tryOl_none p2 p1 _ h]
      rw [ih p1 (some c) cs (fun d hd => h d (List.mem_cons_of_mem c hd))]

theorem olSub_id (l : List Char) (h : ∀ c ∈ l, c.isDigit = false) : olSub l = l :=
  olSubF_id l.length none none l h

theorem hasTriple_true_mem (l : List Char) (h : hasTriple l = true) : '\n' ∈ l := by
  induction l with
  | nil => simp [hasTriple] at h
  | cons c cs ih =>
    cases cs with
    | nil => simp [hasTriple] at h
    | cons b bs =>
      cases bs with
      | nil => simp [hasTriple] at h
      | cons e es =>
        rw [hasTriple] at h
        rcases Bool.or_eq_true_iff.mp h with h1 | h2
        · have hc : c = '\n' := by simpa using (by
            obtain ⟨⟨hx, _⟩, _⟩ := by simpa using h1
            exact hx)
          rw [← hc]
          exact List.mem_cons_self c _
        · exact List.mem_cons_of_mem c (ih h2)

theorem hasTriple_of_no_nl (l : List Char) (h : '\n' ∉ l) : hasTriple l = false := by
  by_contra hne
  exact h (hasTriple_true_mem l (Bool.of_not_eq_false hne))

theorem collapseNl_eq_self (l : List Char) (h : hasTriple l = false) : collapseNl l = l := by
  unfold collapseNl
  exact collapse_eq_self l.length l h

theorem collapseNl_noTriple (l : List Char) : hasTriple (collapseNl l) = false := by
  unfold collapseNl
  exact collapse_noTriple l.length l le_rfl

theorem recover_branchA (x : List Char) (h1 : '#' ∉ x) (h2 : '-' ∉ x) (hn : '\n' ∈ x) :
    auto_add_linebreaks x = pyStrip (collapseNl x) := by
  unfold auto_add_linebreaks
  rw [if_pos hn, headingSub_id x h1, hrASub_id x h2]

theorem recover_branchB (x : List Char) (h1 : '#' ∉ x) (h2 : '-' ∉ x) (h3 : '–' ∉ x)
    (h4 : ∀ c ∈ x, c.isDigit = false) (hn : '\n' ∉ x) :
    auto_add_linebreaks x = pyStrip x := by
  unfold auto_add_linebreaks
  rw [if_neg hn, headingSub_id x h1, hashLeadFix_id x h1, hrBSub_id x h2,
      dashSub_id x h2 h3, olSub_id x h4, boldItemSub_id x h2, punctSub_id x h1,
      collapseNl_eq_self x (hasTriple_of_no_nl x hn)]

/-- C1 counterexample: on `a --- --- b` one pass yields
`a\n---\n\n---\nb`, but the second pass (now in the has-newlines branch)
swallows the blank line between the two rules, so the recoverer is not
idempotent. -/
theorem recover_not_idempotent_counterexample :
    auto_add_linebreaks (auto_add_linebreaks ("a --- --- b".toList)) ≠
      auto_add_linebreaks ("a --- --- b".toList) := by
  decide

/-- C1 amended: `auto_add_linebreaks` is idempotent on every string free of
heading markers, hyphens, en dashes and decimal digits (on such strings both
passes reduce to newline-run collapsing and whitespace trimming); on
general strings idempotence fails. -/
theorem recover_idempotent_restricted (s : List Char)
    (h1 : '#' ∉ s) (h2 : '-' ∉ s) (h3 : '–' ∉ s) (h4 : ∀ c ∈ s, c.isDigit = false) :
    auto_add_linebreaks (auto_add_linebreaks s) = auto_add_linebreaks s := by
  by_cases hn : '\n' ∈ s
  · rw [recover_branchA s h1 h2 hn]
    have hsub : ∀ c : Char, c ∈ pyStrip (collapseNl s) → c ∈ s :=
      fun c hc => mem_collapseNl_sub s c (mem_pyStrip_sub _ c hc)
    have hy1 : '#' ∉ pyStrip (collapseNl s) := fun hm => h1 (hsub _ hm)
    have hy2 : '-' ∉ pyStrip (collapseNl s) := fun hm => h2 (hsub _ hm)
    have hy3 : '–' ∉ pyStrip (collapseNl s) := fun hm => h3 (hsub _ hm)
    have hy4 : ∀ c ∈ pyStrip (collapseNl s), c.isDigit = false :=
      fun c hc => h4 c (hsub c hc)
    have hTy : hasTriple (pyStrip (collapseNl s)) = false :=
      hasTriple_pyStrip _ (collapseNl_noTriple s)
    by_cases hn2 : '\n' ∈ pyStrip (collapseNl s)
    · rw [recover_branchA _ hy1 hy2 hn2, collapseNl_eq_self _ hTy]
      exact pyStrip_idem _
    · rw [recover_branchB _ hy1 hy2 hy3 hy4 hn2]
      exact pyStrip_idem _
  · rw [recover_branchB s h1 h2 h3 h4 hn]
    have hsub : ∀ c : Char, c ∈ pyStrip s → c ∈ s := fun c hc => mem_pyStrip_sub s c hc
    have hz1 : '#' ∉ pyStrip s := fun hm => h1 (hsub _ hm)
    have hz2 : '-' ∉ pyStrip s := fun hm => h2 (hsub _ hm)
    have hz3 : '–' ∉ pyStrip s := fun hm => h3 (hsub _ hm)
    have hz4 : ∀ c ∈ pyStrip s, c.isDigit = false := fun c hc => h4 c (hsub c hc)
    have hzn : '\n' ∉ pyStrip s := fun hm => hn (hsub _ hm)
    rw [recover_branchB _ hz1 hz2 hz3 hz4 hzn]
    exact pyStrip_idem _

/-- Witness for the amended C1 theorem at a concrete marker-free string. -/
theorem recover_idempotent_restricted_witness :
    ('#' ∉ ("ab。 word\n\n\n\ncd ".toList) ∧ '-' ∉ ("ab。 word\n\n\n\ncd ".toList) ∧
      '–' ∉ ("ab。 word\n\n\n\ncd ".toList) ∧
      ∀ c ∈ ("ab。 word\n\n\n\ncd ".toList), c.isDigit = false) ∧
    auto_add_linebreaks (auto_add_linebreaks ("ab。 word\n\n\n\ncd ".toList)) =
      auto_add_linebreaks ("ab。 word\n\n\n\ncd ".toList) :=
  ⟨by decide,
   recover_idempotent_restricted ("ab。 word\n\n\n\ncd ".toList) (by decide) (by decide)
     (by decide) (by decide)⟩

/-! ## C5: non-destructiveness on already-newlined input -/

theorem count_dropWhile_eq (p : Char → Bool) (x : Char) (l : List Char)
    (hx : ∀ c, p c = true → ¬ c = x) :
    List.count x (l.dropWhile p) = List.count x l := by
  conv_rhs => rw [← List.takeWhile_append_dropWhile (p := p) (l := l)]
  rw [List.count_append]
  have h0 : List.count x (l.takeWhile p) = 0 := by
    rw [List.count_eq_zero]
    intro hm
    exact hx x (List.mem_takeWhile_imp hm) rfl
  omega

theorem count_hash_pyStrip (l : List Char) :
    List.count '#' (pyStrip l) = List.count '#' l := by
  unfold pyStrip pyLstrip pyRstrip
  rw [count_dropWhile_eq pyWs '#' _ (fun c hc he => by rw [he] at hc; exact absurd hc (by decide)),
      List.count_reverse,
      count_dropWhile_eq pyWs '#' _ (fun c hc he => by rw [he] at hc; exact absurd hc (by decide)),
      List.count_reverse]

theorem scanSub_count (tf : List Char → Option (List Char × List Char)) (x : Char)
    (hx : ∀ l rep rest, tf l = some (rep, rest) →
      List.count x (rep ++ rest) = List.count x l) :
    ∀ n l, List.count x (scanSub tf n l) = List.count x l := by
  intro n
  induction n with
  | zero => intro l; rfl
  | succ n ih =>
    intro l
    cases l with
    | nil => rfl
    | cons c cs =>
      cases ht : tf (c :: cs) with
      | some pr =>
        simp only [scanSub, ht]
        have hp := hx _ pr.1 pr.2 (by rw [ht])
        rw [List.count_append] at hp ⊢
        rw [ih pr.2]
        exact hp
      | none =>
        simp only [scanSub, ht, List.count_cons]
        rw [ih cs]

theorem tryHeading_count (l rep rest : List Char)
    (h : tryHeading l = some (rep, rest)) :
    List.count '#' (rep ++ rest) = List.count '#' l := by
  cases l with
  | nil => simp [tryHeading] at h
  | cons c cs =>
    simp only [tryHeading] at h
    split at h
    · cases h
      simp only [List.cons_append, List.count_cons, List.nil_append]
      rw [count_dropWhile_eq pyWs '#' cs
        (fun d hd he => by rw [he] at hd; exact absurd hd (by decide))]
      simp
    · cases h

theorem all_ws_of_dropWhile_nil (p : Char → Bool) (r : List Char)
    (h : r.dropWhile p = []) : ∀ c ∈ r, p c = true := by
  intro c hc
  have hr : r = r.takeWhile p := by
    conv_lhs => rw [← List.takeWhile_append_dropWhile (p := p) (l := r)]
    rw [h, List.append_nil]
  rw [hr] at hc
  exact List.mem_takeWhile_imp hc

theorem count_eq_zero_of_all (p : Char → Bool) (x : Char) (r : List Char)
    (hall : ∀ c ∈ r, p c = true) (hx : p x = false) : List.count x r = 0 := by
  rw [List.count_eq_zero]
  intro hm
  rw [hall x hm] at hx
  exact absurd hx (by simp)

theorem tryHrA_count (l rep rest : List Char)
    (h : tryHrA l = some (rep, rest)) :
    List.count '#' (rep ++ rest) = List.count '#' l := by
  cases l with
  | nil => simp [tryHrA] at h
  | cons c1 r0 =>
    simp only [tryHrA] at h
    split at h
    · simp at h
    · rename_i hc1
      split at h
      case h_2 => simp at h
      rename_i x0 r2 heq
      have hr0 : List.count '#' r0 = List.count '#' ('-' :: '-' :: '-' :: r2) := by
        rw [← heq, count_dropWhile_eq pyWs '#' r0
          (fun d hd he => by rw [he] at hd; exact absurd hd (by decide))]
      split at h
      · rename_i x1 c2 tr heq2
        cases h
        have hr2 : List.count '#' r2 = List.count '#' (c2 :: rest) := by
          rw [← heq2, count_dropWhile_eq pyWs '#' r2
            (fun d hd he => by rw [he] at hd; exact absurd hd (by decide))]
        simp only [List.cons_append, List.nil_append, List.count_cons, List.count_nil,
          List.count_append] at hr0 hr2 ⊢
        simp only [show (('\n' : Char) == '#') = false from rfl,
          show (('-' : Char) == '#') = false from rfl, Bool.false_eq_true, if_false] at hr0 hr2 ⊢
        omega
      · rename_i heq2
        have hws : ∀ c ∈ r2, pyWs c = true := all_ws_of_dropWhile_nil pyWs r2 heq2
        have hr2z : List.count '#' r2 = 0 :=
          count_eq_zero_of_all pyWs '#' r2 hws (by decide)
        split at h
        case h_2 => simp at h
        rename_i x2 c2 tl heq3
        cases h
        have hc2 : c2 ∈ r2 := by
          have hm : c2 ∈ r2.reverse.dropWhile (fun x => decide (x = '\n')) := by
            rw [heq3]
            simp
          have hm2 := (List.dropWhile_sublist _).subset hm
          simpa using hm2
        have hc2h : (c2 == '#') = false := by
          have hcw := hws c2 hc2
          cases hcc : c2 == '#' with
          | false => rfl
          | true =>
            have : c2 = '#' := by simpa using hcc
            rw [this] at hcw
            exact absurd hcw (by decide)
        have hrest :
            List.count '#' ((r2.reverse.takeWhile (fun x => decide (x = '\n'))).reverse) = 0 := by
          rw [List.count_eq_zero]
          intro hm
          have hm3 : '#' ∈ r2.reverse.takeWhile (fun x => decide (x = '\n')) := by
            simpa using hm
          have hm4 := (List.takeWhile_sublist _).subset hm3
          have hm5 : '#' ∈ r2 := by simpa using hm4
          have := hws '#' hm5
          exact absurd this (by decide)
        simp only [List.cons_append, List.nil_append, List.count_cons, List.count_nil,
          List.count_append] at hr0 ⊢
        simp only [show (('\n' : Char) == '#') = false from rfl,
          show (('-' : Char) == '#') = false from rfl, Bool.false_eq_true, if_false] at hr0 ⊢
        rw [hrest, hc2h]
        simp only [Bool.false_eq_true, if_false]
        omega

theorem tryCollapse_count (l rep rest : List Char)
    (h : tryCollapse l = some (rep, rest)) :
    List.count '#' (rep ++ rest) = List.count '#' l := by
  unfold tryCollapse at h
  split at h
  · cases h
    rw [List.count_append]
    have h2 : List.count '#' (['\n', '\n'] : List Char) = 0 := by decide
    rw [h2, count_dropWhile_eq (fun x => decide (x = '\n')) '#' l
      (fun d hd he => by rw [he] at hd; exact absurd hd (by decide))]
    omega
  · cases h

/-- C5 counterexample: on `a\n# \n` (a heading line whose text is only
whitespace, at the end of the string) the final trim removes the heading
line's trailing whitespace, so the surviving `#` no longer begins a heading
line, although the input contained a newline. -/
theorem recover_heading_loss_counterexample :
    ('\n' ∈ ("a\n# \n".toList)) ∧
    (∃ line ∈ pySplitlines ("a\n# \n".toList), headsAt line = true) ∧
    (∀ line ∈ pySplitlines (auto_add_linebreaks ("a\n# \n".toList)), headsAt line = false) := by
  refine ⟨by decide, by decide, by decide⟩

/-- C5 amended: on input containing a newline, `auto_add_linebreaks` never
removes a `#` character — the number of `#` characters is preserved exactly
(only whitespace around a heading can be rearranged or trimmed, so a
whitespace-only heading at the end of the string can stop parsing as a
heading without its marker being deleted). -/
theorem recover_preserves_hash_count (s : List Char) (hn : '\n' ∈ s) :
    List.count '#' (auto_add_linebreaks s) = List.count '#' s := by
  unfold auto_add_linebreaks
  rw [if_pos hn, count_hash_pyStrip]
  unfold collapseNl hrASub headingSub
  rw [scanSub_count tryCollapse '#' (fun l r t h => tryCollapse_count l r t h),
      scanSub_count tryHrA '#' (fun l r t h => tryHrA_count l r t h),
      scanSub_count tryHeading '#' (fun l r t h => tryHeading_count l r t h)]

/-- Witness for the amended C5 theorem. -/
theorem recover_preserves_hash_count_witness :
    ('\n' ∈ ("x\n## title y".toList)) ∧
    List.count '#' (auto_add_linebreaks ("x\n## title y".toList)) =
      List.count '#' ("x\n## title y".toList) :=
  ⟨by decide, recover_preserves_hash_count ("x\n## title y".toList) (by decide)⟩


/-! ## Shared lemmas for the renderer theorems -/

theorem mem_dropWhile_of_neg (p : Char → Bool) (l : List Char) (c : Char)
    (hc : c ∈ l) (hp : p c = false) : c ∈ l.dropWhile p := by
  induction l with
  | nil => cases hc
  | cons a as ih =>
    by_cases ha : p a = true
    · rw [List.dropWhile_cons_of_pos ha]
      rcases List.mem_cons.mp hc with rfl | h2
      · rw [ha] at hp; cases hp
      · exact ih h2
    · rw [List.dropWhile_cons_of_neg ha]
      exact hc

theorem mem_pyRstrip_of_neg (t : List Char) (c : Char) (hc : c ∈ t) (hp : pyWs c = false) :
    c ∈ pyRstrip t := by
  unfold pyRstrip
  rw [List.mem_reverse]
  exact mem_dropWhile_of_neg pyWs t.reverse c (List.mem_reverse.mpr hc) hp

theorem mem_pyStrip_of_neg (t : List Char) (c : Char) (hc : c ∈ t) (hp : pyWs c = false) :
    c ∈ pyStrip t := by
  show c ∈ (pyRstrip t).dropWhile pyWs
  exact mem_dropWhile_of_neg pyWs (pyRstrip t) c (mem_pyRstrip_of_neg t c hc hp) hp

theorem pyRstrip_ne_nil (t : List Char) (c : Char) (hc : c ∈ t) (hp : pyWs c = false) :
    pyRstrip t ≠ [] := by
  intro he
  have hm := mem_pyRstrip_of_neg t c hc hp
  rw [he] at hm
  cases hm

theorem pyStrip_ne_nil (t : List Char) (c : Char) (hc : c ∈ t) (hp : pyWs c = false) :
    pyStrip t ≠ [] := by
  intro he
  have hm := mem_pyStrip_of_neg t c hc hp
  rw [he] at hm
  cases hm

theorem dropWhile_append_of_ne_nil (p : Char → Bool) (a b : List Char)
    (h : a.dropWhile p ≠ []) : (a ++ b).dropWhile p = a.dropWhile p ++ b := by
  rw [List.dropWhile_append, if_neg]
  simpa [List.isEmpty_iff] using h

theorem pyRstrip_append_of_ne (a b : List Char) (h : pyRstrip b ≠ []) :
    pyRstrip (a ++ b) = a ++ pyRstrip b := by
  have hb : b.reverse.dropWhile pyWs ≠ [] := by
    intro he
    apply h
    show (b.reverse.dropWhile pyWs).reverse = []
    rw [he]
    rfl
  show ((a ++ b).reverse.dropWhile pyWs).reverse = a ++ (b.reverse.dropWhile pyWs).reverse
  rw [List.reverse_append, dropWhile_append_of_ne_nil pyWs b.reverse a.reverse hb,
    List.reverse_append, List.reverse_reverse]

theorem pyRstrip_idem (l : List Char) : pyRstrip (pyRstrip l) = pyRstrip l :=
  pyRstrip_eq_self_of_getLast? _ (fun x hx => pyRstrip_getLast? l x hx)

theorem pyStrip_eq_self_of_ends (l : List Char)
    (hh : ∀ x, l.head? = some x → pyWs x = false)
    (hl : ∀ x, l.getLast? = some x → pyWs x = false) : pyStrip l = l := by
  have h1 : pyRstrip l = l := pyRstrip_eq_self_of_getLast? l hl
  show pyLstrip (pyRstrip l) = l
  rw [h1]
  cases l with
  | nil => rfl
  | cons c r => exact pyLstrip_cons_of_neg c r (hh c rfl)

theorem getLast?_append_some (x y : List Char) (c : Char) (h : y.getLast? = some c) :
    (x ++ y).getLast? = some c := by
  rw [List.getLast?_append, h]
  rfl

theorem splitlinesGo_cons_of_not_term (c : Char) (r cur : List Char)
    (hc : isLineTerm c = false) :
    splitlinesGo cur (c :: r) = splitlinesGo (c :: cur) r := by
  have hcr : ¬ c = '\r' := by
    intro e
    rw [e] at hc
    exact absurd hc (by decide)
  rw [splitlinesGo.eq_def]
  split
  · rename_i heq
    cases heq
  · rename_i heq
    injection heq with h1 h2
    exact absurd h1 hcr
  · rename_i hno heq
    injection heq with h1 h2
    subst h1
    subst h2
    rw [if_neg (by simp [hc])]

theorem splitlinesGo_cons_nl (r cur : List Char) :
    splitlinesGo cur ('\n' :: r) =
      cur.reverse :: (if r.isEmpty then [] else splitlinesGo [] r) := by
  rw [splitlinesGo.eq_def]
  split
  · rename_i heq
    cases heq
  · rename_i heq
    injection heq with h1 h2
    exact absurd h1 (by decide)
  · rename_i hno heq
    injection heq with h1 h2
    subst h1
    subst h2
    rw [if_pos (by decide)]

theorem splitlinesGo_no_term (l : List Char) : ∀ cur : List Char,
    (∀ c ∈ l, isLineTerm c = false) → splitlinesGo cur l = [cur.reverse ++ l] := by
  induction l with
  | nil =>
    intro cur h
    simp [splitlinesGo]
  | cons c r ih =>
    intro cur h
    rw [splitlinesGo_cons_of_not_term c r cur (h c (by simp)),
      ih (c :: cur) (fun d hd => h d (by simp [hd]))]
    simp

theorem splitlinesGo_piece (p : List Char) : ∀ cur rest : List Char,
    (∀ c ∈ p, isLineTerm c = false) →
    splitlinesGo cur (p ++ '\n' :: rest) =
      (cur.reverse ++ p) :: (if rest.isEmpty then [] else splitlinesGo [] rest) := by
  induction p with
  | nil =>
    intro cur rest h
    rw [List.nil_append, splitlinesGo_cons_nl rest cur, List.append_nil]
  | cons c p' ih =>
    intro cur rest h
    rw [List.cons_append, splitlinesGo_cons_of_not_term c _ cur (h c (by simp)),
      ih (c :: cur) rest (fun d hd => h d (by simp [hd]))]
    simp

theorem pySplitlines_no_term (l : List Char) (hne : l ≠ [])
    (h : ∀ c ∈ l, isLineTerm c = false) : pySplitlines l = [l] := by
  unfold pySplitlines
  rw [if_neg (by simpa [List.isEmpty_iff] using hne)]
  simpa using splitlinesGo_no_term l [] h

theorem pySplitlines_intercalate (ps : List (List Char)) :
    ps ≠ [] → (∀ p ∈ ps, ∀ c ∈ p, isLineTerm c = false) → ps.getLast? ≠ some [] →
    pySplitlines (List.intercalate ['\n'] ps) = ps := by
  induction ps with
  | nil => intro h _ _; cases h rfl
  | cons p ps' ih =>
    intro _ hterm hlast
    cases ps' with
    | nil =>
      have hp : p ≠ [] := by
        intro he
        apply hlast
        rw [he]
        rfl
      rw [show List.intercalate ['\n'] [p] = p by simp [List.intercalate]]
      exact pySplitlines_no_term p hp (hterm p (by simp))
    | cons q qs =>
      have hlast' : (q :: qs).getLast? ≠ some [] := by
        rwa [List.getLast?_cons_cons] at hlast
      have hR := ih (by simp) (fun x hx => hterm x (by simp [hx])) hlast'
      have hRne : List.intercalate ['\n'] (q :: qs) ≠ [] := by
        intro he
        rw [he] at hR
        simp [pySplitlines] at hR
      rw [show List.intercalate ['\n'] (p :: q :: qs) =
        p ++ '\n' :: List.intercalate ['\n'] (q :: qs) by simp [List.intercalate]]
      unfold pySplitlines
      rw [if_neg (by simp [List.isEmpty_iff])]
      rw [splitlinesGo_piece p [] (List.intercalate ['\n'] (q :: qs)) (hterm p (by simp))]
      rw [if_neg (by simpa [List.isEmpty_iff] using hRne)]
      have hgo : splitlinesGo [] (List.intercalate ['\n'] (q :: qs)) = q :: qs := by
        have h2 := hR
        unfold pySplitlines at h2
        rwa [if_neg (by simpa [List.isEmpty_iff] using hRne)] at h2
      rw [hgo]
      rfl

theorem renderLinesF_nil (n : Nat) : renderLinesF n [] = [] := by
  cases n <;> rfl

theorem matchHeading_heading (k : Nat) (w R : List Char)
    (hk1 : 1 ≤ k) (hk6 : k ≤ 6) (hwne : w ≠ [])
    (hw : ∀ c ∈ w, pyWs c = true)
    (hR : R.dropWhile pyWs ≠ []) :
    matchHeading (List.replicate k '#' ++ (w ++ R)) = some (k, R.dropWhile pyWs) := by
  obtain ⟨wc, w', rfl⟩ := List.exists_cons_of_ne_nil hwne
  have hwc : pyWs wc = true := hw wc (by simp)
  have hwch : ¬ (wc = '#') := by
    intro e
    rw [e] at hwc
    exact absurd hwc (by decide)
  have hrep : ∀ a ∈ List.replicate k '#', (fun x => decide (x = '#')) a = true := by
    intro a ha
    have ha2 : a = '#' := (List.mem_replicate.mp ha).2
    rw [ha2]
    decide
  have htake : (List.replicate k '#' ++ (wc :: w' ++ R)).takeWhile (· = '#')
      = List.replicate k '#' := by
    rw [List.takeWhile_append_of_pos hrep, List.cons_append,
      List.takeWhile_cons_of_neg (by simpa using hwch)]
    simp
  have hdropHash : (List.replicate k '#' ++ (wc :: w' ++ R)).dropWhile (· = '#')
      = wc :: (w' ++ R) := by
    rw [List.dropWhile_append_of_pos hrep, List.cons_append]
    exact List.dropWhile_cons_of_neg (by simpa using hwch)
  have hdropWs : (wc :: (w' ++ R)).dropWhile pyWs = R.dropWhile pyWs := by
    rw [List.dropWhile_cons_of_pos (by simpa using hwc)]
    exact List.dropWhile_append_of_pos (fun a ha => hw a (by simp [ha]))
  have h1 : (List.replicate k '#').isEmpty = false := by
    cases k with
    | zero => exact absurd hk1 (by decide)
    | succ n => rfl
  have h2 : decide (6 < (List.replicate k '#').length) = false := by
    rw [List.length_replicate]
    exact decide_eq_false (by omega)
  obtain ⟨t0, ts, hts⟩ := List.exists_cons_of_ne_nil hR
  simp only [matchHeading, htake, hdropHash, hdropWs, hts, hwc, h1, h2,
    List.length_replicate, Bool.or_self, Bool.false_or, if_true, if_false,
    Bool.false_eq_true]
  rw [if_neg (by simp; omega)]

/-- C6: a line consisting of one to six `#` markers, whitespace, and text
renders to a heading element whose level is the marker count clamped to a
maximum of 4, and the element carries the `class="section-title"` marker
exactly when the clamped level equals 2. -/
theorem heading_render (k : Nat) (w t : List Char)
    (hk1 : 1 ≤ k) (hk6 : k ≤ 6) (hwne : w ≠ [])
    (hw : ∀ c ∈ w, pyWs c = true ∧ isLineTerm c = false)
    (ht : ∃ c ∈ t, pyWs c = false)
    (htt : ∀ c ∈ t, isLineTerm c = false) :
    markdown_to_html (List.replicate k '#' ++ w ++ t) =
      "<h".toList ++ [Nat.digitChar (min k 4)] ++
        (if min k 4 = 2 then " class=\"section-title\"".toList else []) ++
        ">".toList ++ render_inline (pyStrip t) ++
        "</h".toList ++ [Nat.digitChar (min k 4)] ++ ">".toList := by
  obtain ⟨c0, hc0, hc0w⟩ := ht
  have hRne : pyRstrip t ≠ [] := pyRstrip_ne_nil t c0 hc0 hc0w
  have hSne : (pyRstrip t).dropWhile pyWs ≠ [] := pyStrip_ne_nil t c0 hc0 hc0w
  have hLne : List.replicate k '#' ++ w ++ t ≠ [] := by
    intro he
    obtain ⟨wc, w', rfl⟩ := List.exists_cons_of_ne_nil hwne
    simp at he
  have hterm : ∀ c ∈ List.replicate k '#' ++ w ++ t, isLineTerm c = false := by
    intro c hc
    rcases List.mem_append.mp hc with h | h
    · rcases List.mem_append.mp h with h2 | h2
      · rw [(List.mem_replicate.mp h2).2]
        decide
      · exact (hw c h2).2
    · exact htt c h
  have hsplit : pySplitlines (List.replicate k '#' ++ w ++ t)
      = [List.replicate k '#' ++ w ++ t] := pySplitlines_no_term _ hLne hterm
  have hline : pyRstrip (List.replicate k '#' ++ w ++ t)
      = List.replicate k '#' ++ (w ++ pyRstrip t) := by
    rw [pyRstrip_append_of_ne (List.replicate k '#' ++ w) t hRne, List.append_assoc]
  have hmatch : matchHeading (List.replicate k '#' ++ (w ++ pyRstrip t))
      = some (k, (pyRstrip t).dropWhile pyWs) :=
    matchHeading_heading k w (pyRstrip t) hk1 hk6 hwne (fun c hc => (hw c hc).1) hSne
  have hie : (List.replicate k '#' ++ (w ++ pyRstrip t)).isEmpty = false := by
    cases k with
    | zero => exact absurd hk1 (by decide)
    | succ n => rfl
  have hidem : pyStrip ((pyRstrip t).dropWhile pyWs) = (pyRstrip t).dropWhile pyWs :=
    pyStrip_idem t
  have hhead : (headingHtml k ((pyRstrip t).dropWhile pyWs)).head? = some '<' := rfl
  have hlast : (headingHtml k ((pyRstrip t).dropWhile pyWs)).getLast? = some '>' := by
    unfold headingHtml
    exact getLast?_append_some _ _ '>' (by decide)
  simp only [markdown_to_html]
  rw [hsplit]
  simp only [List.length_cons, List.length_nil, renderLinesF, hline, hie, hmatch,
    Bool.false_eq_true, if_false, renderLinesF_nil, hidem, collapseBlanksGo,
    Bool.and_false, List.intercalate]
  simp only [List.intersperse, List.flatten, List.append_nil]
  rw [pyStrip_eq_self_of_ends _
    (fun x hx => by
      rw [hhead] at hx
      rw [← Option.some.inj hx]
      decide)
    (fun x hx => by
      rw [hlast] at hx
      rw [← Option.some.inj hx]
      decide)]
  unfold headingHtml
  rfl

theorem heading_render_witness :
    markdown_to_html (List.replicate 2 '#' ++ [' '] ++ "Hi".toList) =
      "<h2 class=\"section-title\">Hi</h2>".toList := by
  have h := heading_render 2 [' '] "Hi".toList (by decide) (by decide) (by decide)
    (by decide) (by decide) (by decide)
  rw [h]
  decide

theorem matchUl_shape (x : List Char) (h : matchUl x = true) :
    ∃ c d r, x = c :: d :: r ∧ (c = '-' ∨ c = '*') ∧ pyWs d = true := by
  cases x with
  | nil => simp [matchUl] at h
  | cons c x' =>
    cases x' with
    | nil => simp [matchUl] at h
    | cons d r =>
      simp only [matchUl, Bool.and_eq_true, Bool.or_eq_true, decide_eq_true_eq] at h
      exact ⟨c, d, r, rfl, h.1, h.2⟩

theorem matchUl_isEmpty_false (x : List Char) (h : matchUl x = true) :
    x.isEmpty = false := by
  obtain ⟨c, d, r, rfl, _, _⟩ := matchUl_shape x h
  rfl

theorem matchHeading_none_of_matchUl (x : List Char) (h : matchUl x = true) :
    matchHeading x = none := by
  obtain ⟨c, d, r, rfl, hc, _⟩ := matchUl_shape x h
  have hch : ¬ ((fun y => decide (y = '#')) c = true) := by
    rcases hc with rfl | rfl <;> decide
  have htake : (c :: d :: r).takeWhile (· = '#') = [] :=
    List.takeWhile_cons_of_neg hch
  simp [matchHeading, htake]

theorem pyStrip_ul_ne_dashes (x : List Char) (h : matchUl x = true)
    (hr : pyRstrip x = x) : ¬ (pyStrip x = "---".toList) := by
  obtain ⟨c, d, r, rfl, hc, hd⟩ := matchUl_shape x h
  have hcw : pyWs c = false := by
    rcases hc with rfl | rfl <;> decide
  have hs : pyStrip (c :: d :: r) = c :: d :: r := by
    show pyLstrip (pyRstrip (c :: d :: r)) = c :: d :: r
    rw [hr]
    exact pyLstrip_cons_of_neg c (d :: r) hcw
  rw [hs]
  intro he
  injection he with h1 h2
  injection h2 with h3 h4
  rw [h3] at hd
  exact absurd hd (by decide)

theorem collectItems_run (A rest : List (List Char))
    (hA : ∀ l ∈ A, matchUl (pyRstrip l) = true)
    (hstop : rest = [] ∨ ∃ h0 t0, rest = h0 :: t0 ∧ (pyRstrip h0).isEmpty = true) :
    collectItems matchUl ulItemText (A ++ rest) =
      (A.map (fun l => "<li>".toList ++ render_inline (ulItemText (pyRstrip l)) ++
        "</li>".toList), rest) := by
  induction A with
  | nil =>
    rcases hstop with rfl | ⟨h0, t0, rfl, hh⟩
    · rfl
    · simp [collectItems, hh]
  | cons a A' ih =>
    have ha := hA a (by simp)
    have hane : (pyRstrip a).isEmpty = false := matchUl_isEmpty_false _ ha
    rw [List.cons_append]
    simp only [collectItems, hane, Bool.false_eq_true, if_false, ha, if_true]
    rw [ih (fun l hl => hA l (by simp [hl]))]
    rfl

theorem renderLinesF_ul_run (n : Nat) (A rest : List (List Char)) (hAne : A ≠ [])
    (hA : ∀ l ∈ A, matchUl (pyRstrip l) = true)
    (hstop : rest = [] ∨ ∃ h0 t0, rest = h0 :: t0 ∧ (pyRstrip h0).isEmpty = true) :
    renderLinesF (n + 1) (A ++ rest) =
      ("<ul>".toList ++ (A.map (fun l => "<li>".toList ++
        render_inline (ulItemText (pyRstrip l)) ++ "</li>".toList)).flatten ++
        "</ul>".toList) :: renderLinesF n rest := by
  obtain ⟨a, A', rfl⟩ := List.exists_cons_of_ne_nil hAne
  have ha := hA a (by simp)
  have hane : (pyRstrip a).isEmpty = false := matchUl_isEmpty_false _ ha
  have hmh : matchHeading (pyRstrip a) = none := matchHeading_none_of_matchUl _ ha
  have hdash : ¬ (pyStrip (pyRstrip a) = "---".toList) :=
    pyStrip_ul_ne_dashes (pyRstrip a) ha (pyRstrip_idem a)
  have hcoll := collectItems_run (a :: A') rest hA hstop
  rw [List.cons_append]
  simp only [renderLinesF, hane, Bool.false_eq_true, if_false, hmh]
  rw [if_neg hdash]
  simp only [ha, if_true, ← List.cons_append, hcoll]
  rfl

theorem getLast?_mem_list (l : List (List Char)) (x : List Char)
    (h : l.getLast? = some x) : x ∈ l := by
  induction l with
  | nil => simp at h
  | cons a t ih =>
    cases t with
    | nil =>
      simp at h
      simp [h]
    | cons b t' =>
      rw [List.getLast?_cons_cons] at h
      exact List.mem_cons_of_mem a (ih h)

theorem pyStrip_eq_self_of_head_last (l : List Char) (hh : l.head? = some '<')
    (hl : l.getLast? = some '>') : pyStrip l = l := by
  apply pyStrip_eq_self_of_ends
  · intro x hx
    rw [hh] at hx
    rw [← Option.some.inj hx]
    decide
  · intro x hx
    rw [hl] at hx
    rw [← Option.some.inj hx]
    decide

/-- C7: consecutive `[-*]\s+` lines are grouped into a single `<ul>` with one
`<li>` per line, a blank line ends the run, and two runs separated by a blank
line produce two separate `<ul>` elements; in particular
`"- a\n- b\n\nc"` renders to one two-item list followed by a separate
paragraph. -/
theorem ul_grouping :
    (∀ A B : List (List Char), A ≠ [] → B ≠ [] →
      (∀ l ∈ A, matchUl (pyRstrip l) = true ∧ ∀ c ∈ l, isLineTerm c = false) →
      (∀ l ∈ B, matchUl (pyRstrip l) = true ∧ ∀ c ∈ l, isLineTerm c = false) →
      markdown_to_html (List.intercalate ['\n'] (A ++ [] :: B)) =
        "<ul>".toList ++ (A.map (fun l => "<li>".toList ++
          render_inline (ulItemText (pyRstrip l)) ++ "</li>".toList)).flatten ++
        "</ul>".toList ++ "\n\n".toList ++
        ("<ul>".toList ++ (B.map (fun l => "<li>".toList ++
          render_inline (ulItemText (pyRstrip l)) ++ "</li>".toList)).flatten ++
        "</ul>".toList)) ∧
    markdown_to_html "- a\n- b\n\nc".toList
      = "<ul><li>a</li><li>b</li></ul>\n\n<p>c</p>".toList := by
  constructor
  · intro A B hAne hBne hA hB
    obtain ⟨a, A', rfl⟩ := List.exists_cons_of_ne_nil hAne
    obtain ⟨b, B', rfl⟩ := List.exists_cons_of_ne_nil hBne
    have hA1 : ∀ l ∈ a :: A', matchUl (pyRstrip l) = true := fun l hl => (hA l hl).1
    have hB1 : ∀ l ∈ b :: B', matchUl (pyRstrip l) = true := fun l hl => (hB l hl).1
    have hterm : ∀ p ∈ (a :: A') ++ [] :: b :: B', ∀ c ∈ p, isLineTerm c = false := by
      intro p hp
      rcases List.mem_append.mp hp with h | h
      · exact (hA p h).2
      · rcases List.mem_cons.mp h with rfl | h2
        · intro c hc
          cases hc
        · exact (hB p h2).2
    have hlast : ((a :: A') ++ [] :: b :: B').getLast? ≠ some [] := by
      intro he
      rw [List.getLast?_append] at he
      rw [List.getLast?_cons_cons] at he
      cases hgl : (b :: B').getLast? with
      | none =>
        rw [List.getLast?_eq_none_iff] at hgl
        cases hgl
      | some x =>
        rw [hgl] at he
        have hx : x = [] := by
          have h2 : (some x).or ((a :: A').getLast?) = some x := rfl
          rw [h2] at he
          exact Option.some.inj he
        have hmem := getLast?_mem_list _ x hgl
        rw [hx] at hmem
        have := hB1 [] hmem
        simp [matchUl, pyRstrip] at this
    have hsplit := pySplitlines_intercalate ((a :: A') ++ [] :: b :: B')
      (by simp) hterm hlast
    simp only [markdown_to_html]
    rw [hsplit]
    have hlen : ((a :: A') ++ [] :: b :: B').length = (A'.length + B'.length + 2) + 1 := by
      simp [List.length_append]
      omega
    rw [hlen]
    rw [renderLinesF_ul_run (A'.length + B'.length + 2) (a :: A') ([] :: b :: B')
      (by simp) hA1 (Or.inr ⟨[], b :: B', rfl, rfl⟩)]
    rw [show A'.length + B'.length + 2 = (A'.length + B'.length + 1) + 1 from rfl]
    rw [show renderLinesF ((A'.length + B'.length + 1) + 1) ([] :: b :: B')
        = [] :: renderLinesF (A'.length + B'.length + 1) (b :: B') from by
      simp [renderLinesF, pyRstrip]]
    have hrun2 := renderLinesF_ul_run (A'.length + B'.length) (b :: B') []
      (by simp) hB1 (Or.inl rfl)
    rw [List.append_nil] at hrun2
    rw [hrun2, renderLinesF_nil]
    have hu1 : ("<ul>".toList ++ ((a :: A').map (fun l => "<li>".toList ++
        render_inline (ulItemText (pyRstrip l)) ++ "</li>".toList)).flatten ++
        "</ul>".toList).isEmpty = false := rfl
    have hu2 : ("<ul>".toList ++ ((b :: B').map (fun l => "<li>".toList ++
        render_inline (ulItemText (pyRstrip l)) ++ "</li>".toList)).flatten ++
        "</ul>".toList).isEmpty = false := rfl
    simp only [collapseBlanksGo, Bool.and_false, Bool.and_true, hu1, hu2,
      Bool.false_eq_true, if_false, List.isEmpty_nil]
    rw [show List.intercalate ['\n'] [("<ul>".toList ++ ((a :: A').map (fun l =>
        "<li>".toList ++ render_inline (ulItemText (pyRstrip l)) ++
        "</li>".toList)).flatten ++ "</ul>".toList), [],
        ("<ul>".toList ++ ((b :: B').map (fun l => "<li>".toList ++
        render_inline (ulItemText (pyRstrip l)) ++ "</li>".toList)).flatten ++
        "</ul>".toList)] = ("<ul>".toList ++ ((a :: A').map (fun l =>
        "<li>".toList ++ render_inline (ulItemText (pyRstrip l)) ++
        "</li>".toList)).flatten ++ "</ul>".toList) ++ '\n' :: '\n' ::
        ("<ul>".toList ++ ((b :: B').map (fun l => "<li>".toList ++
        render_inline (ulItemText (pyRstrip l)) ++ "</li>".toList)).flatten ++
        "</ul>".toList) from by simp [List.intercalate]]
    generalize (List.map (fun l => "<li>".toList ++
      render_inline (ulItemText (pyRstrip l)) ++ "</li>".toList) (a :: A')).flatten = F1
    generalize (List.map (fun l => "<li>".toList ++
      render_inline (ulItemText (pyRstrip l)) ++ "</li>".toList) (b :: B')).flatten = F2
    rw [pyStrip_eq_self_of_head_last
      (("<ul>".toList ++ F1 ++ "</ul>".toList) ++ '\n' :: '\n' ::
        ("<ul>".toList ++ F2 ++ "</ul>".toList)) rfl
      (getLast?_append_some _ _ '>' (getLast?_append_some ['\n', '\n'] _ '>'
        (getLast?_append_some ("<ul>".toList ++ F2) "</ul>".toList '>' (by decide))))]
    simp [List.append_assoc]
  · decide

theorem ul_grouping_witness :
    markdown_to_html (List.intercalate ['\n'] (["- x".toList] ++ [] :: ["- y".toList])) =
      "<ul><li>x</li></ul>\n\n<ul><li>y</li></ul>".toList := by
  have h := ul_grouping.1 ["- x".toList] ["- y".toList] (by decide) (by decide)
    (by decide) (by decide)
  rw [h]
  decide

/-- C8: `auto_add_linebreaks` and `markdown_to_html` are total functions on
strings, and a nonblank line matching none of the block patterns (heading,
rule, unordered list, ordered list) falls through to the paragraph case. -/
theorem pipeline_total :
    (∀ s : List Char, ∃ r, auto_add_linebreaks s = r) ∧
    (∀ md : List Char, ∃ r, markdown_to_html md = r) ∧
    (∀ l : List Char, pyRstrip l ≠ [] →
      (∀ c ∈ l, isLineTerm c = false) →
      matchHeading (pyRstrip l) = none →
      ¬ (pyStrip (pyRstrip l) = "---".toList) →
      matchUl (pyRstrip l) = false →
      matchOl (pyRstrip l) = false →
      markdown_to_html l = "<p>".toList ++ render_inline (pyRstrip l) ++ "</p>".toList) := by
  refine ⟨fun s => ⟨_, rfl⟩, fun md => ⟨_, rfl⟩, ?_⟩
  intro l hne hterm hmh hdash hul hol
  have hlne : l ≠ [] := by
    intro he
    apply hne
    rw [he]
    rfl
  have hsplit := pySplitlines_no_term l hlne hterm
  simp only [markdown_to_html]
  rw [hsplit]
  simp only [List.length_cons, List.length_nil, renderLinesF]
  rw [if_neg (by simpa [List.isEmpty_iff] using hne)]
  simp only [hmh]
  rw [if_neg hdash]
  simp only [hul, hol, Bool.false_eq_true, if_false, renderLinesF_nil]
  simp only [collapseBlanksGo, Bool.and_false, Bool.false_eq_true, if_false]
  rw [show List.intercalate ['\n']
      [("<p>".toList ++ render_inline (pyRstrip l) ++ "</p>".toList)]
      = ("<p>".toList ++ render_inline (pyRstrip l) ++ "</p>".toList) from by
    simp [List.intercalate]]
  rw [pyStrip_eq_self_of_head_last
    ("<p>".toList ++ render_inline (pyRstrip l) ++ "</p>".toList) rfl
    (getLast?_append_some ("<p>".toList ++ render_inline (pyRstrip l))
      "</p>".toList '>' (by decide))]

theorem pipeline_total_witness :
    markdown_to_html "hello".toList = "<p>hello</p>".toList := by
  have h := pipeline_total.2.2 "hello".toList (by decide) (by decide) (by decide)
    (by decide) (by decide) (by decide)
  rw [h]
  decide

theorem splitCh_sep_not_mem (sep : Char) (l : List Char) :
    ∀ p ∈ splitCh sep l, sep ∉ p := by
  induction l with
  | nil =>
    intro p hp
    simp [splitCh] at hp
    rw [hp]
    simp
  | cons c cs ih =>
    intro p hp
    by_cases hc : c = sep
    · simp only [splitCh, if_pos hc] at hp
      rcases List.mem_cons.mp hp with rfl | h2
      · simp
      · exact ih p h2
    · cases hsp : splitCh sep cs with
      | nil =>
        simp only [splitCh, if_neg hc, hsp] at hp
        rcases List.mem_cons.mp hp with rfl | h2
        · intro hm
          rcases List.mem_cons.mp hm with rfl | h3
          · exact hc rfl
          · cases h3
        · cases h2
      | cons r rs =>
        simp only [splitCh, if_neg hc, hsp] at hp
        rcases List.mem_cons.mp hp with rfl | h2
        · intro hm
          rcases List.mem_cons.mp hm with rfl | h3
          · exact hc rfl
          · exact ih r (by rw [hsp]; simp) h3
        · exact ih p (by rw [hsp]; simp [h2]) 

theorem parse_table_line_no_pipe (line : List Char) :
    ∀ p ∈ parse_table_line line, '|' ∉ p := by
  intro p hp
  unfold parse_table_line at hp
  have hp2 := List.mem_of_mem_filter hp
  obtain ⟨q, hq, rfl⟩ := List.mem_map.mp hp2
  intro hmem
  exact splitCh_sep_not_mem '|' (pyStrip line) q hq (mem_pyStrip_sub q '|' hmem)

/-- C10: the summary-clearing pass copies unchanged every body line that does
not start with `|` after stripping, or does not parse to exactly four cells,
or whose summary cell contains the placeholder, or whose summary passes the
markdown-format check; only the remaining rows are rebuilt with the default
placeholder as fourth field, the first three parsed cells (which never
contain `|`) being preserved; the body loop maps this per-line transform and
counts the cleared rows. -/
theorem clear_frame :
    (∀ l, startsWith ['|'] (pyStrip l) = false → processLine l = (l, false)) ∧
    (∀ l, (parse_table_line l).length ≠ 4 → processLine l = (l, false)) ∧
    (∀ l c0 c1 c2 c3, parse_table_line l = [c0, c1, c2, c3] →
      containsSub placeholderLit c3 = true → processLine l = (l, false)) ∧
    (∀ l c0 c1 c2 c3, parse_table_line l = [c0, c1, c2, c3] →
      is_valid_markdown_format c3 = true → processLine l = (l, false)) ∧
    (∀ l c0 c1 c2 c3, parse_table_line l = [c0, c1, c2, c3] →
      startsWith ['|'] (pyStrip l) = true →
      containsSub placeholderLit c3 = false →
      is_valid_markdown_format c3 = false →
      processLine l = (rebuild_line c0 c1 c2 default_summary_cell, true)) ∧
    (∀ line, ∀ p ∈ parse_table_line line, '|' ∉ p) ∧
    (∀ body, clear_body body =
      (body.map (fun l => (processLine l).1),
        (body.filter (fun l => (processLine l).2)).length)) := by
  refine ⟨?_, ?_, ?_, ?_, ?_, ?_, ?_⟩
  · intro l h
    simp [processLine, h]
  · intro l h
    cases hst : startsWith ['|'] (pyStrip l) with
    | false => simp [processLine, hst]
    | true =>
      simp only [processLine, hst, Bool.not_true, Bool.false_eq_true, if_false]
      split
      · rename_i c0 c1 c2 c3 heq
        rw [heq] at h
        simp at h
      · rfl
  · intro l c0 c1 c2 c3 hp hcont
    cases hst : startsWith ['|'] (pyStrip l) with
    | false => simp [processLine, hst]
    | true => simp [processLine, hst, hp, hcont]
  · intro l c0 c1 c2 c3 hp hval
    cases hst : startsWith ['|'] (pyStrip l) with
    | false => simp [processLine, hst]
    | true =>
      cases hcont : containsSub placeholderLit c3 with
      | true => simp [processLine, hst, hp, hcont]
      | false => simp [processLine, hst, hp, hcont, hval]
  · intro l c0 c1 c2 c3 hp hst hcont hval
    simp [processLine, hst, hp, hcont, hval]
  · exact parse_table_line_no_pipe
  · intro body
    induction body with
    | nil => rfl
    | cons a rest ih =>
      simp only [clear_body, ih, List.map_cons, List.filter_cons]
      cases hb : (processLine a).2 with
      | false => simp
      | true =>
        simp [List.length_cons]
        omega

theorem clear_frame_witness :
    processLine "hello".toList = ("hello".toList, false) ∧
    processLine "| d | t | l | s |".toList =
      (rebuild_line "d".toList "t".toList "l".toList default_summary_cell, true) := by
  exact ⟨clear_frame.1 "hello".toList (by decide),
    clear_frame.2.2.2.2.1 "| d | t | l | s |".toList
      "d".toList "t".toList "l".toList "s".toList
      (by decide) (by decide) (by decide) (by decide)⟩

end ArxivVla
